import Mathlib

/-
Verification development for the Excel image-extraction engine
(OOXML ".xlsx" and legacy OLE2 ".xls" paths).

The TypeScript sources are shallowly embedded:
  * byte buffers become `List Nat` (one element per byte);
  * Node's little-endian accessors become explicit arithmetic;
  * base64 strings are represented by their underlying byte lists; the
    length of the base64 encoding of `n` raw bytes is `4 * ((n + 2) / 3)`,
    which is what `Buffer.toString('base64').length` yields (padded);
  * `zlib.inflateSync` (an external library call) is abstracted as a
    parameter `inf : List Nat → Option (List Nat)`, `none` meaning the
    `catch` branch (decompression failed, raw data kept);
  * the filesystem, SheetJS sheet-name listing, CFB stream lookup, the
    ZIP directory and the regex-scraped XML attribute lists are external
    inputs of the engine and are passed in as explicit data;
  * JavaScript string helpers used by the source (`split`, `startsWith`,
    `toLowerCase`, `pop`, `slice(1)`) are re-implemented structurally so
    that everything evaluates inside the kernel.

Loops that walk a buffer by offset are written with an explicit fuel
argument; the fuel is initialised to `buf.length + 1`, which strictly
bounds the number of iterations (every iteration advances the offset by
at least 4 (BIFF) or 8 (Escher) bytes, and nesting consumes at least an
8-byte header per level).
-/

namespace ExcelReader

/-! ## JavaScript string helpers (structural re-implementations) -/

/-- Split a character list at every occurrence of `sep`
(JavaScript `String.prototype.split` with a one-character separator). -/
def chSplit (sep : Char) : List Char → List (List Char)
  | [] => [[]]
  | c :: rest =>
    let r := chSplit sep rest
    if c = sep then [] :: r
    else match r with
      | [] => [[c]]
      | g :: gs => (c :: g) :: gs

/-- JavaScript `s.split(sep)` for a one-character separator. -/
def jsSplit (sep : Char) (s : String) : List String :=
  (chSplit sep s.data).map String.mk

/-- Is `p` a prefix of the character list? -/
def chPrefix : List Char → List Char → Bool
  | [], _ => true
  | _ :: _, [] => false
  | p :: ps, c :: cs => if p = c then chPrefix ps cs else false

/-- JavaScript `s.startsWith(p)`. -/
def jsStartsWith (s p : String) : Bool := chPrefix p.data s.data

/-- JavaScript `s.toLowerCase()` (ASCII, which is all the source feeds it). -/
def jsToLower (s : String) : String := String.mk (s.data.map Char.toLower)

/-- JavaScript `arr.pop()` on the result of a split: the last element,
`""` for an empty list (splits are never empty). -/
def jsLast (l : List String) : String := l.getLast? |>.getD ""

/-- JavaScript `s.slice(1)`. -/
def jsDrop1 (s : String) : String := String.mk s.data.tail

/-- `path.substring(0, path.lastIndexOf("/"))`: everything before the last
slash, `""` when there is no slash (lastIndexOf = -1 makes substring empty). -/
def jsDirname (s : String) : String :=
  String.intercalate "/" ((jsSplit '/' s).dropLast)

/-- JavaScript truthiness of the optional `sheetName` argument: `undefined`
and the empty string are both falsy. -/
def truthy : Option String → Bool
  | none => false
  | some s => s ≠ ""

/-- The value behind a truthy `sheetName` (only used under `truthy`). -/
def optVal : Option String → String
  | none => ""
  | some s => s

/-! ## Little-endian byte accessors over `List Nat` buffers -/

/-- `buf.readUInt8(o)` (reads as 0 beyond the end; every use in the source
is guarded by a length check). -/
def u8 (b : List Nat) (o : Nat) : Nat := b.getD o 0

/-- `buf.readUInt16LE(o)`. -/
def u16le (b : List Nat) (o : Nat) : Nat := b.getD o 0 + 256 * b.getD (o+1) 0

/-- The unsigned 32-bit little-endian value at `o`. -/
def u32le (b : List Nat) (o : Nat) : Nat :=
  b.getD o 0 + 256 * b.getD (o+1) 0 + 65536 * b.getD (o+2) 0 + 16777216 * b.getD (o+3) 0

/-- `buf.readInt32LE(o)` (two's complement). -/
def i32le (b : List Nat) (o : Nat) : Int :=
  let n := u32le b o
  if n < 2147483648 then (n : Int) else (n : Int) - 4294967296

/-- `buf.subarray(start, stop)`. -/
def slice (b : List Nat) (start stop : Nat) : List Nat :=
  (b.drop start).take (stop - start)

/-- Length of `Buffer.from(bytes).toString('base64')` for `n` raw bytes. -/
def base64Len (n : Nat) : Nat := 4 * ((n + 2) / 3)

/-- `MAX_IMAGES_SIZE = 10 * 1024 * 1024` — the cumulative base64 budget. -/
def MAX_IMAGES_SIZE : Nat := 10 * 1024 * 1024

/-! ## Insertion-ordered maps (JavaScript `Map` as an association list)

JavaScript `Map` iterates in insertion order; `set` on an existing key
updates the entry in place.  The source uses two patterns: plain `set`
(replace) and the grouping idiom `map.set(k, (map.get(k) || []).push(v))`.
-/

/-- `map.get k` on an insertion-ordered map. -/
def alookup {κ γ : Type} [DecidableEq κ] (k : κ) (l : List (κ × γ)) : Option γ :=
  (l.find? (fun p => p.1 = k)).map (fun p => p.2)

/-- `map.set k v` (replace in place, else append). -/
def mapSet {κ γ : Type} [DecidableEq κ] (k : κ) (v : γ) : List (κ × γ) → List (κ × γ)
  | [] => [(k, v)]
  | (k', v') :: rest =>
    if k' = k then (k, v) :: rest else (k', v') :: mapSet k v rest

/-- The grouping idiom: append `v` to the bucket of `k`. -/
def upsertApp {κ β : Type} [DecidableEq κ] (k : κ) (v : β) :
    List (κ × List β) → List (κ × List β)
  | [] => [(k, [v])]
  | (k', vs) :: rest =>
    if k' = k then (k', vs ++ [v]) :: rest else (k', vs) :: upsertApp k v rest

/-- Group a list into an insertion-ordered multimap, keyed by `key`,
collecting `val` of each element (the source's `Map`-based grouping loops). -/
def groupAcc {α κ β : Type} [DecidableEq κ] (key : α → κ) (val : α → β)
    (ms : List α) (acc : List (κ × List β)) : List (κ × List β) :=
  ms.foldl (fun a m => upsertApp (key m) (val m) a) acc

def groupBy {α κ β : Type} [DecidableEq κ] (key : α → κ) (val : α → β)
    (ms : List α) : List (κ × List β) :=
  groupAcc key val ms []

/-! ## BIFF record reader (`readBiffRecords`, src/xls-image-extractor.ts 92-116) -/

/-- BIFF record constants used by the extractor. -/
def BIFF_MSODRAWINGGROUP : Nat := 0x00eb
def BIFF_MSODRAWING : Nat := 0x00ec
def BIFF_CONTINUE : Nat := 0x003c
def BIFF_BOF : Nat := 0x0809
def BIFF_EOF : Nat := 0x000a

structure BiffRecord where
  type : Nat
  data : List Nat
  deriving DecidableEq

/-- The loop body of `readBiffRecords`.  The accumulator holds the records
seen so far in reverse order, so that merging a CONTINUE payload into the
"previous" record touches the head.  Each iteration advances the offset by
at least 4, so `buf.length + 1` fuel never runs out. -/
def readBiffGo (buf : List Nat) : Nat → Nat → List BiffRecord → List BiffRecord
  | 0, _, acc => acc.reverse
  | fuel+1, offset, acc =>
    if offset + 4 ≤ buf.length then
      let ty := u16le buf offset
      let len := u16le buf (offset + 2)
      if offset + 4 + len > buf.length then acc.reverse
      else
        let data := slice buf (offset + 4) (offset + 4 + len)
        let acc' :=
          match acc with
          | [] => [⟨ty, data⟩]
          | p :: rest =>
            if ty = BIFF_CONTINUE then ⟨p.type, p.data ++ data⟩ :: rest
            else ⟨ty, data⟩ :: p :: rest
        readBiffGo buf fuel (offset + 4 + len) acc'
    else acc.reverse

/-- `readBiffRecords(buf)`: yield `(type, data)` records, merging CONTINUE
(0x003C) payloads into the preceding record; a record whose declared length
overruns the buffer ends parsing. -/
def readBiffRecords (buf : List Nat) : List BiffRecord :=
  readBiffGo buf (buf.length + 1) 0 []

/-- Raw record stream: the same framing loop without CONTINUE merging.
Used to state what `readBiffRecords` does as a two-stage refinement. -/
def rawBiffGo (buf : List Nat) : Nat → Nat → List BiffRecord
  | 0, _ => []
  | fuel+1, offset =>
    if offset + 4 ≤ buf.length then
      let ty := u16le buf offset
      let len := u16le buf (offset + 2)
      if offset + 4 + len > buf.length then []
      else ⟨ty, slice buf (offset + 4) (offset + 4 + len)⟩ :: rawBiffGo buf fuel (offset + 4 + len)
    else []

def rawBiffRecords (buf : List Nat) : List BiffRecord :=
  rawBiffGo buf (buf.length + 1) 0

/-- CONTINUE splicing as the spec describes it, on an already-framed record
list: each 0x003C record's payload is appended to the record before it
(successive CONTINUEs all land on the same base record).  A CONTINUE at the
very front has no predecessor.  Fuel = list length (each step shrinks it). -/
def mergeContinuesGo : Nat → List BiffRecord → List BiffRecord
  | 0, rs => rs
  | _+1, [] => []
  | _+1, [r] => [r]
  | fuel+1, r :: s :: rest =>
    if s.type = BIFF_CONTINUE then
      mergeContinuesGo fuel (⟨r.type, r.data ++ s.data⟩ :: rest)
    else r :: mergeContinuesGo fuel (s :: rest)

def mergeContinues (rs : List BiffRecord) : List BiffRecord :=
  mergeContinuesGo rs.length rs

/-- Encode a record list back into BIFF framing bytes (for stating the
truncation behaviour on buffers with a trailing malformed header). -/
def u16bytes (n : Nat) : List Nat := [n % 256, n / 256 % 256]

def encodeBiffRecord (r : BiffRecord) : List Nat :=
  u16bytes r.type ++ u16bytes r.data.length ++ r.data

def encodeBiff (rs : List BiffRecord) : List Nat :=
  (rs.map encodeBiffRecord).flatten

/-- A record encodes losslessly iff its type fits in a u16 and its payload
length fits in a u16. -/
def ValidBiffRecord (r : BiffRecord) : Prop :=
  r.type < 65536 ∧ r.data.length < 65536

/-! ## Escher (Office-Art) records (src/xls-image-extractor.ts 121-154) -/

def ESCHER_DGG_CONTAINER : Nat := 0xf000
def ESCHER_BSTORE_CONTAINER : Nat := 0xf001
def ESCHER_SP_CONTAINER : Nat := 0xf004
def ESCHER_BSE : Nat := 0xf007
def ESCHER_SP : Nat := 0xf00a
def ESCHER_CLIENT_ANCHOR : Nat := 0xf010
def ESCHER_BLIP_EMF : Nat := 0xf01a
def ESCHER_BLIP_WMF : Nat := 0xf01b
def ESCHER_BLIP_PICT : Nat := 0xf01c
def ESCHER_BLIP_JPEG : Nat := 0xf01d
def ESCHER_BLIP_PNG : Nat := 0xf01e
def ESCHER_BLIP_DIB : Nat := 0xf01f
def ESCHER_BLIP_TIFF : Nat := 0xf029
def ESCHER_BLIP_JPEG2 : Nat := 0xf02a

structure EscherRecord where
  version : Nat
  inst : Nat
  type : Nat
  length : Nat
  data : List Nat
  offset : Nat
  deriving DecidableEq

/-- `readEscherRecord(buf, offset)`: parse one Escher header; `none` when
the 8-byte header does not fit, the declared i32 length is negative, or the
payload overruns the buffer. -/
def readEscherRecord (buf : List Nat) (offset : Nat) : Option EscherRecord :=
  if offset + 8 > buf.length then none
  else
    let verAndInstance := u16le buf offset
    let version := verAndInstance % 16
    let inst := verAndInstance / 16 % 4096
    let ty := u16le buf (offset + 2)
    let len : Int := i32le buf (offset + 4)
    if len < 0 ∨ (offset : Int) + 8 + len > (buf.length : Int) then none
    else some ⟨version, inst, ty, len.toNat,
      slice buf (offset + 8) (offset + 8 + len.toNat), offset⟩

/-- One level of `iterEscherRecords`: walk records until one fails to parse.
Each iteration advances by at least 8 bytes. -/
def iterEscherGo (buf : List Nat) : Nat → Nat → List EscherRecord
  | 0, _ => []
  | fuel+1, offset =>
    if offset < buf.length then
      match readEscherRecord buf offset with
      | none => []
      | some rec => rec :: iterEscherGo buf fuel (offset + 8 + rec.length)
    else []

def iterEscherRecords (buf : List Nat) : List EscherRecord :=
  iterEscherGo buf (buf.length + 1) 0

/-- `isContainer`: version nibble 0x0F marks a container record. -/
def isContainer (rec : EscherRecord) : Bool := rec.version = 0x0f

/-! ## BLIP extraction (`extractBlipsFromDrawingGroup`, lines 160-245) -/

structure BlipInfo where
  index : Nat
  mimeType : String
  extension : String
  data : List Nat
  deriving DecidableEq

/-- `getMimeAndExt(blipType)`. -/
def getMimeAndExt (blipType : Nat) : String × String :=
  if blipType = ESCHER_BLIP_EMF then ("image/x-emf", ".emf")
  else if blipType = ESCHER_BLIP_WMF then ("image/x-wmf", ".wmf")
  else if blipType = ESCHER_BLIP_PICT then ("image/pict", ".pict")
  else if blipType = ESCHER_BLIP_JPEG ∨ blipType = ESCHER_BLIP_JPEG2 then ("image/jpeg", ".jpg")
  else if blipType = ESCHER_BLIP_PNG then ("image/png", ".png")
  else if blipType = ESCHER_BLIP_DIB then ("image/bmp", ".bmp")
  else if blipType = ESCHER_BLIP_TIFF then ("image/tiff", ".tiff")
  else ("application/octet-stream", ".bin")

/-- The external `zlib.inflateSync` call, abstracted: `none` models the
`catch` branch (not compressed / decompression failed). -/
def Inflate : Type := List Nat → Option (List Nat)

/-- The per-type header prelude length of a BLIP record (offset of the raw
image bytes inside the BLIP payload), lines 196-219. -/
def blipImageDataOffset (blipType inst : Nat) : Nat :=
  if blipType = ESCHER_BLIP_EMF ∨ blipType = ESCHER_BLIP_WMF ∨ blipType = ESCHER_BLIP_PICT then
    16 + (if inst = 0x3d5 ∨ inst = 0x217 ∨ inst = 0x543 then 16 else 0) + 34
  else if blipType = ESCHER_BLIP_JPEG ∨ blipType = ESCHER_BLIP_JPEG2 then
    16 + (if inst = 0x46b ∨ inst = 0x6e3 then 16 else 0) + 1
  else if blipType = ESCHER_BLIP_PNG then
    16 + (if inst = 0x6e1 then 16 else 0) + 1
  else if blipType = ESCHER_BLIP_DIB then
    16 + (if inst = 0x7a9 then 16 else 0) + 1
  else if blipType = ESCHER_BLIP_TIFF then
    16 + (if inst = 0x6e5 then 16 else 0) + 1
  else 17

/-- Body of the BSE loop (lines 170-240) for one record of a
BStoreContainer, given its 1-based position `idx` among all children.
`none` models every `continue`. -/
def bseToBlip (inf : Inflate) (idx : Nat) (bse : EscherRecord) : Option BlipInfo :=
  if bse.type ≠ ESCHER_BSE then none
  else if bse.data.length < 36 then none
  else
    let cbName := u8 bse.data 33
    let blipOffset := 36 + cbName
    if blipOffset ≥ bse.data.length then none
    else
      match readEscherRecord bse.data blipOffset with
      | none => none
      | some blipRec =>
        let blipType := blipRec.type
        let me := getMimeAndExt blipType
        let imageDataOffset := blipImageDataOffset blipType blipRec.inst
        let blipData := blipRec.data
        if imageDataOffset ≥ blipData.length then none
        else
          let raw := blipData.drop imageDataOffset
          let imageData :=
            if blipType = ESCHER_BLIP_EMF ∨ blipType = ESCHER_BLIP_WMF ∨
               blipType = ESCHER_BLIP_PICT then
              (inf raw).getD raw
            else raw
          some ⟨idx, me.1, me.2, imageData⟩

/-- The BSE loop over one BStoreContainer payload: `bseIndex` is
incremented for every child record (BSE or not) before the type test, so
the 1-based index of a blip is its position among all children. -/
def bseLoop (inf : Inflate) (storeData : List Nat) : List BlipInfo :=
  (iterEscherRecords storeData).enum.filterMap
    (fun p => bseToBlip inf (p.1 + 1) p.2)

/-- `extractBlipsFromDrawingGroup(data)`: DggContainer → BStoreContainer →
BSE → BLIP (lines 160-245). -/
def extractBlipsFromDrawingGroup (inf : Inflate) (data : List Nat) : List BlipInfo :=
  ((iterEscherRecords data).filter
      (fun dgg => dgg.type = ESCHER_DGG_CONTAINER ∧ isContainer dgg)).flatMap
    (fun dgg =>
      ((iterEscherRecords dgg.data).filter
          (fun child => child.type = ESCHER_BSTORE_CONTAINER ∧ isContainer child)).flatMap
        (fun child => bseLoop inf child.data))

/-! ## Sheet-anchor parsing (`parseSheetDrawings`, lines 250-341) -/

structure DrawingAnchor where
  sheetName : String
  spId : Int
  blipIndex : Int
  fromCol : Nat
  fromRow : Nat
  toCol : Nat
  toRow : Nat
  deriving DecidableEq

/-- Scan the children of one SpContainer for SP and ClientAnchor atoms
(lines 290-305); later occurrences overwrite earlier ones. -/
def spScan : List EscherRecord → Int → Option (Nat × Nat × Nat × Nat) →
    Int × Option (Nat × Nat × Nat × Nat)
  | [], spId, anchor => (spId, anchor)
  | child :: rest, spId, anchor =>
    let spId' := if child.type = ESCHER_SP ∧ child.data.length ≥ 4
      then i32le child.data 0 else spId
    let anchor' := if child.type = ESCHER_CLIENT_ANCHOR ∧ child.data.length ≥ 18
      then some (u16le child.data 2, u16le child.data 6, u16le child.data 10, u16le child.data 14)
      else anchor
    spScan rest spId' anchor'

/-- Walk one OPT/FOPT property table (lines 313-323): `numProps` entries of
6 bytes each, stopping early when an entry would overflow; the property
whose low 14 bits are 0x0104 overwrites `blipIndex`. -/
def optProps (data : List Nat) : Nat → Nat → Int → Int
  | 0, _, blipIndex => blipIndex
  | n+1, propOffset, blipIndex =>
    if propOffset + 6 ≤ data.length then
      let propId := u16le data propOffset
      let propValue := i32le data (propOffset + 2)
      let blipIndex' := if propId % 16384 = 0x0104 then propValue else blipIndex
      optProps data n (propOffset + 6) blipIndex'
    else blipIndex

/-- Scan the children of one SpContainer for OPT records (lines 308-325);
`blipIndex` persists across records. -/
def optScan : List EscherRecord → Int → Int
  | [], blipIndex => blipIndex
  | child :: rest, blipIndex =>
    let blipIndex' :=
      if (child.type = 0xf00b ∨ child.type = 0xf122) ∧ child.data.length ≥ 6 then
        optProps child.data child.inst 0 blipIndex
      else blipIndex
    optScan rest blipIndex'

/-- Process one SpContainer (lines 280-335): it contributes an anchor iff
its OPT table carries a positive pib (blip index) and a ClientAnchor was
seen. -/
def spContainerAnchor (sheetName : String) (rec : EscherRecord) : List DrawingAnchor :=
  let spChildren := iterEscherRecords rec.data
  let sa := spScan spChildren 0 none
  let blipIndex := optScan spChildren 0
  match sa.2 with
  | some (c1, r1, c2, r2) =>
    if blipIndex > 0 then [⟨sheetName, sa.1, blipIndex, c1, r1, c2, r2⟩] else []
  | none => []

/-- `processContainer` (lines 257-337): first recurse into every container
(and, defensively, into atoms typed SpContainer), then collect the anchors
of the SpContainers at this level.  The anchors array is appended to
depth-first, so the recursive results precede this level's own.  Fuel
bounds the nesting depth (each level consumes an 8-byte header, so
`buf.length + 1` is ample). -/
def processContainer (sheetName : String) : Nat → List Nat → List DrawingAnchor
  | 0, _ => []
  | fuel+1, buf =>
    let recs := iterEscherRecords buf
    let part1 := recs.flatMap (fun rec =>
      if isContainer rec then processContainer sheetName fuel rec.data
      else if rec.type = ESCHER_SP_CONTAINER then processContainer sheetName fuel rec.data
      else [])
    let part2 := recs.flatMap (fun rec =>
      if rec.type = ESCHER_SP_CONTAINER ∧ isContainer rec then
        spContainerAnchor sheetName rec
      else [])
    part1 ++ part2

/-- `parseSheetDrawings(drawingData, sheetName)`. -/
def parseSheetDrawings (drawingData : List Nat) (sheetName : String) : List DrawingAnchor :=
  processContainer sheetName (drawingData.length + 1) drawingData

/-! ## Legacy workbook-stream traversal and result assembly
(`extractXlsImages`, lines 343-480). -/

structure ImagePosition where
  sheet : String
  fromRow : Nat
  fromCol : Nat
  toRow : Nat
  toCol : Nat
  deriving DecidableEq

structure ExtractedImage where
  name : String
  mimeType : String
  /-- The base64 payload, represented by the byte list it encodes (legacy
  path) or the base64 text itself as bytes (OOXML path); only its length
  and identity are ever consumed. -/
  data : List Nat
  positions : List ImagePosition
  deriving DecidableEq

/-- State of the sub-stream scan (lines 377-407): the sub-stream counter
starts at -1 and increments on every BOF; EOF leaves the current
sub-stream.  MsoDrawingGroup payloads are collected (unconditionally);
MsoDrawing payloads are grouped per sheet index `substreamIndex - 1`. -/
structure CollectState where
  substreamIndex : Int
  inSubstream : Bool
  drawingGroupBuffers : List (List Nat)
  sheetDrawings : List (Nat × List (List Nat))
  deriving DecidableEq

def collectStep (st : CollectState) (rec : BiffRecord) : CollectState :=
  let st :=
    if rec.type = BIFF_BOF then
      { st with substreamIndex := st.substreamIndex + 1, inSubstream := true }
    else st
  let st :=
    if rec.type = BIFF_EOF then { st with inSubstream := false } else st
  let st :=
    if rec.type = BIFF_MSODRAWINGGROUP then
      { st with drawingGroupBuffers := st.drawingGroupBuffers ++ [rec.data] }
    else st
  if rec.type = BIFF_MSODRAWING ∧ st.inSubstream ∧ st.substreamIndex ≥ 1 then
    { st with sheetDrawings :=
        upsertApp (st.substreamIndex - 1).toNat rec.data st.sheetDrawings }
  else st

def collectDrawings (records : List BiffRecord) : CollectState :=
  records.foldl collectStep ⟨-1, false, [], []⟩

/-- Gather anchors from the per-sheet drawings (lines 426-437): skip sheet
indices beyond the sheet-name list, apply the (truthy) sheet filter, and
parse the concatenated MsoDrawing payloads of each sheet. -/
def gatherAnchors (sheetNames : List String) (sheetName : Option String)
    (sheetDrawings : List (Nat × List (List Nat))) : List DrawingAnchor :=
  sheetDrawings.flatMap (fun p =>
    if p.1 ≥ sheetNames.length then []
    else
      let sName := sheetNames.getD p.1 ""
      if truthy sheetName ∧ sName ≠ optVal sheetName then []
      else parseSheetDrawings p.2.flatten sName)

/-- Position map: blip index → positions in discovery order (lines 440-451). -/
def blipPositionsOf (allAnchors : List DrawingAnchor) : List (Int × List ImagePosition) :=
  groupBy (fun a => a.blipIndex)
    (fun a => (⟨a.sheetName, a.fromRow, a.fromCol, a.toRow, a.toCol⟩ : ImagePosition))
    allAnchors

/-- The emitted image for one blip (lines 471-476). -/
def mkXlsImage (blip : BlipInfo) (positions : List ImagePosition) : ExtractedImage :=
  ⟨"image" ++ toString blip.index ++ blip.extension, blip.mimeType, blip.data, positions⟩

/-- The result-building loop (lines 454-477): charge every blip's base64
length against the budget, break with `truncated` when it would overflow,
and skip (after charging) blips with no positions when a sheet filter is
active. -/
def buildImagesGo (filterOn : Bool) (pm : List (Int × List ImagePosition)) :
    List BlipInfo → Nat → List ExtractedImage × Bool
  | [], _ => ([], false)
  | blip :: rest, totalSize =>
    let b64len := base64Len blip.data.length
    if totalSize + b64len > MAX_IMAGES_SIZE then ([], true)
    else
      let positions := (alookup (blip.index : Int) pm).getD []
      if filterOn ∧ positions = [] then buildImagesGo filterOn pm rest (totalSize + b64len)
      else
        let r := buildImagesGo filterOn pm rest (totalSize + b64len)
        (mkXlsImage blip positions :: r.1, r.2)

/-- The legacy pipeline after the entry checks (lines 370-479): BIFF
records, sub-stream scan, blip store, per-sheet anchors, result loop.
`sheetNames` is what `XLSX.read(...).SheetNames` reported for the file. -/
def extractXlsCore (inf : Inflate) (wbBuf : List Nat) (sheetNames : List String)
    (sheetName : Option String) : List ExtractedImage × Bool :=
  let records := readBiffRecords wbBuf
  let st := collectDrawings records
  let drawingGroupData := st.drawingGroupBuffers.flatten
  if st.drawingGroupBuffers = [] ∨ drawingGroupData = [] then ([], false)
  else
    let blips := extractBlipsFromDrawingGroup inf drawingGroupData
    if blips = [] then ([], false)
    else
      let allAnchors := gatherAnchors sheetNames sheetName st.sheetDrawings
      let pm := blipPositionsOf allAnchors
      buildImagesGo (truthy sheetName) pm blips 0

/-! ## OOXML pipeline (`extractImages`, src/image-extractor.ts = unnamed/part_001)

The ZIP directory, SheetJS sheet names and the regex-scraped XML attribute
matches are external inputs; they are supplied as explicit data.  String
and relationship plumbing (`resolveRelativePath`, path construction, the
`xl/media/` scan, the double-keyed media map, grouping, filtering and the
two emission loops) is translated from the source. -/

/-- One entry of `zip.files` (only the fields the media scan reads); `data`
is the base64 text the entry decodes to, as bytes. -/
structure ZipEntry where
  path : String
  dir : Bool
  data : List Nat
  deriving DecidableEq

structure MediaVal where
  data : List Nat
  mimeType : String
  deriving DecidableEq

/-- One `twoCellAnchor`/`oneCellAnchor` element as the regexes see it:
all `r:embed` ids, and the `(col, row)` pairs of the from/to matches. -/
structure XmlAnchor where
  isTwoCell : Bool
  embeds : List String
  fromCR : Option (Nat × Nat)
  toCR : Option (Nat × Nat)
  deriving DecidableEq

structure ImageMapping where
  imagePath : String
  position : ImagePosition
  deriving DecidableEq

/-- External content of the workbook package. `sheetRelsFiles` maps a sheet
rels path to the drawing `Target` matches of its rels XML, `drawingFiles`
maps a normalized drawing path to its anchor elements (two-cell anchors
first, then one-cell, as the source runs the two regexes in that order),
and `imageRelsFiles` maps a drawing rels path to its `(rId, Target)`
matches.  `none` is a missing ZIP member. -/
structure OoxmlEnv where
  zipEntries : List ZipEntry
  workbookRels : Option (List (String × String))
  workbookSheets : Option (List (String × String))
  sheetRelsFiles : String → Option (List String)
  drawingFiles : String → Option (List XmlAnchor)
  imageRelsFiles : String → Option (List (String × String))

/-- `MIME_TYPES[ext] || "application/octet-stream"` (part_001 lines 8-19). -/
def mimeOfExt (ext : String) : String :=
  if ext = ".png" then "image/png"
  else if ext = ".jpg" then "image/jpeg"
  else if ext = ".jpeg" then "image/jpeg"
  else if ext = ".gif" then "image/gif"
  else if ext = ".bmp" then "image/bmp"
  else if ext = ".tiff" then "image/tiff"
  else if ext = ".tif" then "image/tiff"
  else if ext = ".emf" then "image/x-emf"
  else if ext = ".wmf" then "image/x-wmf"
  else if ext = ".svg" then "image/svg+xml"
  else "application/octet-stream"

/-- `resolveRelativePath(baseDir, target)` (part_001 lines 23-35). -/
def resolveRelativePath (baseDir target : String) : String :=
  if jsStartsWith target "/" then jsDrop1 target
  else
    String.intercalate "/"
      ((jsSplit '/' target).foldl
        (fun parts part =>
          if part = ".." then parts.dropLast
          else if part ≠ "." then parts ++ [part]
          else parts)
        (jsSplit '/' baseDir))

/-- The `xl/media/` scan (part_001 lines 79-90): each media entry is keyed
both by its full path and by `media/<fileName>`. -/
def mediaFilesOf (entries : List ZipEntry) : List (String × MediaVal) :=
  entries.foldl
    (fun m e =>
      if jsStartsWith e.path "xl/media/" ∧ ¬e.dir then
        let ext := "." ++ jsToLower (jsLast (jsSplit '.' e.path))
        let mimeType := mimeOfExt ext
        let fileName := jsLast (jsSplit '/' e.path)
        mapSet ("media/" ++ fileName) ⟨e.data, mimeType⟩
          (mapSet e.path ⟨e.data, mimeType⟩ m)
      else m)
    []

/-- Build `sheetFileMap : target → sheetIndex` from `workbook.xml.rels` and
`workbook.xml` (part_001 lines 96-124). -/
def sheetFileMapOf (sheetNames : List String) (env : OoxmlEnv) : List (String × Nat) :=
  match env.workbookRels with
  | none => []
  | some sheetRels =>
    match env.workbookSheets with
    | none => []
    | some sheetEntries =>
      sheetEntries.foldl
        (fun m p =>
          match sheetRels.find? (fun r => r.1 = p.2) with
          | none => m
          | some rel =>
            let target := if jsStartsWith rel.2 "/" then jsDrop1 rel.2 else "xl/" ++ rel.2
            match List.findIdx? (fun n => n = p.1) sheetNames with
            | none => m
            | some sheetIdx => mapSet target sheetIdx m)
        []

/-- The image mappings contributed by one sheet (part_001 lines 137-227). -/
def sheetMappings (env : OoxmlEnv) (currentSheetName sheetPath : String) :
    List ImageMapping :=
  let sheetFileName := jsLast (jsSplit '/' sheetPath)
  let sheetDir := jsDirname sheetPath
  let sheetRelsPath := sheetDir ++ "/_rels/" ++ sheetFileName ++ ".rels"
  match env.sheetRelsFiles sheetRelsPath with
  | none => []
  | some drawingTargets =>
    drawingTargets.flatMap (fun drawingTarget =>
      let normalizedDrawingPath := resolveRelativePath sheetDir drawingTarget
      match env.drawingFiles normalizedDrawingPath with
      | none => []
      | some anchors =>
        let drawingFileName := jsLast (jsSplit '/' normalizedDrawingPath)
        let drawingDir := jsDirname normalizedDrawingPath
        let drawingRelsPath := drawingDir ++ "/_rels/" ++ drawingFileName ++ ".rels"
        let imageRIdMap : List (String × String) :=
          match env.imageRelsFiles drawingRelsPath with
          | none => []
          | some imageRels =>
            imageRels.foldl
              (fun m r => mapSet r.1 (resolveRelativePath drawingDir r.2) m) []
        anchors.flatMap (fun anchor =>
          if anchor.embeds = [] then []
          else
            let fromRow := (anchor.fromCR.map (fun c => c.2)).getD 0
            let fromCol := (anchor.fromCR.map (fun c => c.1)).getD 0
            let toRow := if anchor.isTwoCell
              then (anchor.toCR.map (fun c => c.2)).getD fromRow else fromRow
            let toCol := if anchor.isTwoCell
              then (anchor.toCR.map (fun c => c.1)).getD fromCol else fromCol
            anchor.embeds.filterMap (fun rId =>
              match alookup rId imageRIdMap with
              | none => none
              | some imageFullPath =>
                some ⟨imageFullPath,
                  ⟨currentSheetName, fromRow, fromCol, toRow, toCol⟩⟩)))

/-- All image mappings, with the sheet filter applied (lines 133-135). -/
def imageMappingsOf (sheetNames : List String) (env : OoxmlEnv)
    (sheetName : Option String) : List ImageMapping :=
  (sheetFileMapOf sheetNames env).flatMap (fun p =>
    let currentSheetName := sheetNames.getD p.2 ""
    if truthy sheetName ∧ currentSheetName ≠ optVal sheetName then []
    else sheetMappings env currentSheetName p.1)

/-- Emission loop over the deduplicated `imageMap` (lines 246-263); returns
the images, the truncation flag, and the final running total. -/
def emitMapped (mediaFiles : List (String × MediaVal)) :
    List (String × List ImagePosition) → Nat → List ExtractedImage × Bool × Nat
  | [], total => ([], false, total)
  | e :: rest, total =>
    match alookup e.1 mediaFiles with
    | none => emitMapped mediaFiles rest total
    | some media =>
      if total + media.data.length > MAX_IMAGES_SIZE then ([], true, total)
      else
        let r := emitMapped mediaFiles rest (total + media.data.length)
        (⟨jsLast (jsSplit '/' e.1), media.mimeType, media.data, e.2⟩ :: r.1, r.2.1, r.2.2)

/-- Emission loop over the remaining media entries (lines 266-285). -/
def emitUnmapped (imageMap : List (String × List ImagePosition)) :
    List (String × MediaVal) → Nat → List ExtractedImage × Bool
  | [], _ => ([], false)
  | e :: rest, total =>
    if ¬jsStartsWith e.1 "xl/media/" then emitUnmapped imageMap rest total
    else if (alookup e.1 imageMap).isSome then emitUnmapped imageMap rest total
    else if total + e.2.data.length > MAX_IMAGES_SIZE then ([], true)
    else
      let r := emitUnmapped imageMap rest (total + e.2.data.length)
      (⟨jsLast (jsSplit '/' e.1), e.2.mimeType, e.2.data, []⟩ :: r.1, r.2)

/-- The OOXML pipeline after the sheet-name check (part_001 lines 78-287). -/
def extractOoxmlCore (sheetNames : List String) (env : OoxmlEnv)
    (sheetName : Option String) : List ExtractedImage × Bool :=
  let mediaFiles := mediaFilesOf env.zipEntries
  if mediaFiles = [] then ([], false)
  else
    let imageMappings := imageMappingsOf sheetNames env sheetName
    let imageMap := groupBy (fun m => m.imagePath) (fun m => m.position) imageMappings
    let r1 := emitMapped mediaFiles imageMap 0
    if ¬r1.2.1 ∧ ¬truthy sheetName then
      let r2 := emitUnmapped imageMap mediaFiles r1.2.2
      (r1.1 ++ r2.1, r2.2)
    else (r1.1, r1.2.1)

/-! ## Public entry point and error contract -/

/-- The error kinds §7 of the spec names.  The MCP SDK error codes used by
the source all map to `InvalidRequest`. -/
inductive ErrCode where
  | InvalidRequest
  | InvalidFormat
  | InternalError
  deriving DecidableEq

structure ExtractError where
  code : ErrCode
  msg : String
  deriving DecidableEq

/-- Everything outside the engine that a single extraction observes. -/
structure FileEnv where
  /-- `existsSync(filePath)`. -/
  fileExists : Bool
  /-- `readFileSync(filePath)`. -/
  bytes : List Nat
  /-- `XLSX.read(buffer).SheetNames`. -/
  sheetNames : List String
  /-- `CFB.find(cfb, '/Workbook') || CFB.find(cfb, '/Book')`, as the stream
  contents. -/
  cfbStream : Option (List Nat)
  /-- The ZIP/XML content (OOXML path). -/
  ooxml : OoxmlEnv
  /-- `zlib.inflateSync` behaviour. -/
  inflate : Inflate

/-- `extractXlsImages` (src/xls-image-extractor.ts 343-480): entry checks,
then the legacy core. -/
def extractXlsImages (env : FileEnv) (sheetName : Option String) :
    Except ExtractError (List ExtractedImage × Bool) :=
  if ¬env.fileExists then
    .error ⟨.InvalidRequest, "File not found"⟩
  else if truthy sheetName ∧ optVal sheetName ∉ env.sheetNames then
    .error ⟨.InvalidRequest, "Sheet not found"⟩
  else
    match env.cfbStream with
    | none => .error ⟨.InvalidRequest, "Cannot find Workbook stream in .xls file"⟩
    | some wbBuf => .ok (extractXlsCore env.inflate wbBuf env.sheetNames sheetName)

/-- `extractImages` (part_001 lines 37-288): existence, minimum length and
magic-byte checks, dispatch to the legacy extractor for OLE2, otherwise the
OOXML pipeline behind its own sheet-name check. -/
def extractImages (env : FileEnv) (sheetName : Option String) :
    Except ExtractError (List ExtractedImage × Bool) :=
  if ¬env.fileExists then
    .error ⟨.InvalidRequest, "File not found"⟩
  else if env.bytes.length < 4 then
    .error ⟨.InvalidRequest, "File is too small to be a valid Excel file."⟩
  else
    let isZip := u8 env.bytes 0 = 0x50 ∧ u8 env.bytes 1 = 0x4b
    let isOle2 := u8 env.bytes 0 = 0xd0 ∧ u8 env.bytes 1 = 0xcf ∧
      u8 env.bytes 2 = 0x11 ∧ u8 env.bytes 3 = 0xe0
    if ¬isZip ∧ ¬isOle2 then
      .error ⟨.InvalidRequest, "File is not a valid Excel file."⟩
    else if isOle2 then extractXlsImages env sheetName
    else if truthy sheetName ∧ optVal sheetName ∉ env.sheetNames then
      .error ⟨.InvalidRequest, "Sheet not found"⟩
    else .ok (extractOoxmlCore env.sheetNames env.ooxml sheetName)

/-! ## Lemmas about the insertion-ordered maps -/

section MapLemmas

variable {κ γ β : Type} [DecidableEq κ]

theorem alookup_cons (k : κ) (p : κ × γ) (l : List (κ × γ)) :
    alookup k (p :: l) = if p.1 = k then some p.2 else alookup k l := by
  by_cases h : p.1 = k <;> simp [alookup, List.find?, h]

theorem alookup_upsertApp (k q : κ) (v : β) (l : List (κ × List β)) :
    alookup k (upsertApp q v l) =
      if q = k then some ((alookup k l).getD [] ++ [v]) else alookup k l := by
  induction l with
  | nil => by_cases h : q = k <;> simp [upsertApp, alookup_cons, alookup, h]
  | cons p rest ih =>
    rw [upsertApp]
    by_cases hpq : p.1 = q
    · subst hpq
      by_cases hk : p.1 = k
      · simp [hk, alookup_cons]
      · simp [hk, alookup_cons, if_neg hk]
    · rw [if_neg hpq]
      by_cases hk : p.1 = k
      · have hqk : ¬ q = k := fun h => hpq (hk.trans h.symm)
        simp [alookup_cons, hk, hqk]
      · simp only [alookup_cons, if_neg hk, ih]

/-- `some` on a non-empty list, `none` on `[]`. -/
def nonemptyOpt : List β → Option (List β)
  | [] => none
  | v :: vs => some (v :: vs)

theorem nonemptyOpt_eq_some (l vs : List β) :
    nonemptyOpt l = some vs ↔ l = vs ∧ vs ≠ [] := by
  cases l <;> cases vs <;> simp [nonemptyOpt]

theorem alookup_groupAcc (key : α → κ) (val : α → β) (k : κ) :
    ∀ (ms : List α) (acc : List (κ × List β)),
      alookup k (groupAcc key val ms acc) =
        match alookup k acc with
        | some vs => some (vs ++ (ms.filter (fun m => key m = k)).map val)
        | none => nonemptyOpt ((ms.filter (fun m => key m = k)).map val)
  | [], acc => by
    cases h : alookup k acc <;> simp [groupAcc, h, nonemptyOpt]
  | m :: rest, acc => by
    have step : groupAcc key val (m :: rest) acc =
        groupAcc key val rest (upsertApp (key m) (val m) acc) := rfl
    rw [step, alookup_groupAcc key val k rest, alookup_upsertApp]
    by_cases h : key m = k
    · cases hacc : alookup k acc <;>
        simp [h, List.filter_cons, hacc, nonemptyOpt]
    · cases hacc : alookup k acc <;>
        simp [h, List.filter_cons, hacc]

/-- The bucket of key `k` in a grouped list, with the `|| []` default the
source applies: exactly the values of the matching elements, in order. -/
theorem getD_alookup_groupBy (key : α → κ) (val : α → β) (k : κ) (ms : List α) :
    (alookup k (groupBy key val ms)).getD [] =
      (ms.filter (fun m => key m = k)).map val := by
  rw [groupBy, alookup_groupAcc]
  show (nonemptyOpt ((ms.filter (fun m => key m = k)).map val)).getD [] = _
  cases h : (ms.filter (fun m => key m = k)).map val <;> simp [nonemptyOpt, h]

theorem alookup_groupBy (key : α → κ) (val : α → β) (k : κ) (ms : List α) :
    alookup k (groupBy key val ms) =
      nonemptyOpt ((ms.filter (fun m => key m = k)).map val) := by
  rw [groupBy, alookup_groupAcc]
  rfl

theorem map_fst_upsertApp (k : κ) (v : β) (l : List (κ × List β)) :
    (upsertApp k v l).map Prod.fst =
      if k ∈ l.map Prod.fst then l.map Prod.fst else l.map Prod.fst ++ [k] := by
  induction l with
  | nil => simp [upsertApp]
  | cons p rest ih =>
    rw [upsertApp]
    by_cases hpq : p.1 = k
    · simp [hpq]
    · have : ¬ k = p.1 := fun h => hpq h.symm
      by_cases hmem : k ∈ rest.map Prod.fst <;>
        simp [hpq, ih, hmem, this]

theorem nodup_keys_upsertApp (k : κ) (v : β) (l : List (κ × List β))
    (h : (l.map Prod.fst).Nodup) : ((upsertApp k v l).map Prod.fst).Nodup := by
  rw [map_fst_upsertApp]
  by_cases hmem : k ∈ l.map Prod.fst
  · simpa [hmem]
  · have hd : (l.map Prod.fst).Disjoint [k] := by
      intro a ha hak
      rw [List.mem_singleton] at hak
      subst hak
      exact hmem ha
    simpa [hmem] using List.Nodup.append h (List.nodup_singleton k) hd

theorem nodup_keys_groupAcc (key : α → κ) (val : α → β) :
    ∀ (ms : List α) (acc : List (κ × List β)),
      (acc.map Prod.fst).Nodup → ((groupAcc key val ms acc).map Prod.fst).Nodup
  | [], _, h => h
  | _ :: rest, _, h =>
    nodup_keys_groupAcc key val rest _ (nodup_keys_upsertApp _ _ _ h)

theorem nodup_keys_groupBy (key : α → κ) (val : α → β) (ms : List α) :
    ((groupBy key val ms).map Prod.fst).Nodup :=
  nodup_keys_groupAcc key val ms [] (by simp)

theorem mem_iff_alookup {l : List (κ × γ)} (h : (l.map Prod.fst).Nodup)
    (k : κ) (v : γ) : (k, v) ∈ l ↔ alookup k l = some v := by
  induction l with
  | nil => simp [alookup]
  | cons p rest ih =>
    obtain ⟨p1, p2⟩ := p
    rw [List.map_cons] at h
    have hnd := (List.nodup_cons.mp h).2
    have hnmem := (List.nodup_cons.mp h).1
    rw [alookup_cons, List.mem_cons]
    by_cases hk : p1 = k
    · subst hk
      rw [if_pos rfl]
      constructor
      · rintro (hh | hh)
        · obtain ⟨-, rfl⟩ := Prod.mk.injEq .. ▸ hh
          rfl
        · exact absurd (List.mem_map.mpr ⟨_, hh, rfl⟩) hnmem
      · intro hh
        rw [Option.some_inj] at hh
        exact Or.inl (by rw [← hh])
    · rw [if_neg hk, ← ih hnd]
      constructor
      · rintro (hh | hh)
        · exact absurd (congrArg Prod.fst hh.symm) hk
        · exact hh
      · exact fun hh => Or.inr hh

theorem mem_groupBy_iff (key : α → κ) (val : α → β) (ms : List α)
    (k : κ) (vs : List β) :
    (k, vs) ∈ groupBy key val ms ↔
      (ms.filter (fun m => key m = k)).map val = vs ∧ vs ≠ [] := by
  rw [mem_iff_alookup (nodup_keys_groupBy key val ms), alookup_groupBy,
    nonemptyOpt_eq_some]

end MapLemmas

/-! ## Byte-level helper lemmas -/

theorem getD_append_add (a b : List Nat) (i : Nat) :
    (a ++ b).getD (a.length + i) 0 = b.getD i 0 := by
  induction a with
  | nil => simp
  | cons x xs ih => simpa [Nat.succ_add] using ih

theorem drop_append_add (a b : List Nat) (i : Nat) :
    (a ++ b).drop (a.length + i) = b.drop i := by
  induction a with
  | nil => simp
  | cons x xs ih => simp [Nat.succ_add, ih]

theorem take_append_len (a b : List Nat) : (a ++ b).take a.length = a := by
  induction a with
  | nil => simp
  | cons x xs ih => simp [ih]

theorem u16le_append_add (a b : List Nat) (i : Nat) :
    u16le (a ++ b) (a.length + i) = u16le b i := by
  have h1 := getD_append_add a b i
  have h2 := getD_append_add a b (i + 1)
  rw [u16le, u16le, h1, Nat.add_assoc, h2]

theorem slice_append_add (a b : List Nat) (s e : Nat) :
    slice (a ++ b) (a.length + s) (a.length + e) = slice b s e := by
  rw [slice, slice, drop_append_add]
  congr 1
  omega

theorem u16bytes_val (n : Nat) (h : n < 65536) (rest : List Nat) :
    u16le (u16bytes n ++ rest) 0 = n := by
  simp only [u16bytes, List.cons_append, List.nil_append, u16le, List.getD_cons_zero,
    List.getD_cons_succ]
  omega

/-! ## BIFF reader refinement: `readBiffRecords` = framing + CONTINUE splicing -/

/-- One step of the CONTINUE-splicing fold, on a reversed-record stack
(exactly the `acc` update inside `readBiffGo`). -/
def mergeStep (stack : List BiffRecord) (r : BiffRecord) : List BiffRecord :=
  match stack with
  | [] => [r]
  | p :: rest =>
    if r.type = BIFF_CONTINUE then ⟨p.type, p.data ++ r.data⟩ :: rest
    else r :: p :: rest

theorem readBiffGo_eq_foldl (buf : List Nat) :
    ∀ (fuel off : Nat) (acc : List BiffRecord),
      readBiffGo buf fuel off acc = ((rawBiffGo buf fuel off).foldl mergeStep acc).reverse
  | 0, _, acc => by simp [readBiffGo, rawBiffGo]
  | fuel+1, off, acc => by
    rw [readBiffGo, rawBiffGo]
    by_cases h1 : off + 4 ≤ buf.length
    · rw [if_pos h1, if_pos h1]
      by_cases h2 : off + 4 + u16le buf (off + 2) > buf.length
      · rw [if_pos h2, if_pos h2]
        rfl
      · rw [if_neg h2, if_neg h2, readBiffGo_eq_foldl buf fuel, List.foldl_cons]
        cases acc <;> rfl
    · rw [if_neg h1, if_neg h1]
      simp

theorem mergeContinuesGo_fuel : ∀ (f1 f2 : Nat) (rs : List BiffRecord),
    rs.length ≤ f1 → rs.length ≤ f2 →
    mergeContinuesGo f1 rs = mergeContinuesGo f2 rs
  | 0, f2, rs, h1, _ => by
    have hrs : rs = [] := List.eq_nil_of_length_eq_zero (Nat.le_zero.mp h1)
    subst hrs
    cases f2 <;> rfl
  | f1+1, 0, rs, _, h2 => by
    have hrs : rs = [] := List.eq_nil_of_length_eq_zero (Nat.le_zero.mp h2)
    subst hrs
    rfl
  | f1+1, f2+1, [], _, _ => rfl
  | f1+1, f2+1, [r], _, _ => rfl
  | f1+1, f2+1, r :: s :: rest, h1, h2 => by
    rw [mergeContinuesGo, mergeContinuesGo]
    by_cases hs : s.type = BIFF_CONTINUE
    · rw [if_pos hs, if_pos hs]
      exact mergeContinuesGo_fuel f1 f2 _ (by simp at h1 ⊢; omega) (by simp at h2 ⊢; omega)
    · rw [if_neg hs, if_neg hs,
        mergeContinuesGo_fuel f1 f2 _ (by simp at h1 ⊢; omega) (by simp at h2 ⊢; omega)]

theorem mergeContinues_cons2 (r s : BiffRecord) (rest : List BiffRecord) :
    mergeContinues (r :: s :: rest) =
      if s.type = BIFF_CONTINUE then mergeContinues (⟨r.type, r.data ++ s.data⟩ :: rest)
      else r :: mergeContinues (s :: rest) := by
  rw [mergeContinues, List.length_cons, List.length_cons, mergeContinuesGo]
  by_cases hs : s.type = BIFF_CONTINUE
  · rw [if_pos hs, if_pos hs, mergeContinues]
    exact mergeContinuesGo_fuel _ _ _ (by simp) (by simp)
  · rw [if_neg hs, if_neg hs, mergeContinues]
    rw [mergeContinuesGo_fuel (rest.length + 1) (s :: rest).length _ (by simp) (by simp)]

theorem foldl_mergeStep_reverse :
    ∀ (rs : List BiffRecord) (p : BiffRecord) (acc : List BiffRecord),
      (rs.foldl mergeStep (p :: acc)).reverse = acc.reverse ++ mergeContinues (p :: rs)
  | [], p, acc => by simp [mergeContinues, mergeContinuesGo]
  | r :: rs', p, acc => by
    rw [List.foldl_cons]
    by_cases hr : r.type = BIFF_CONTINUE
    · rw [show mergeStep (p :: acc) r = ⟨p.type, p.data ++ r.data⟩ :: acc from by
        simp [mergeStep, hr]]
      rw [foldl_mergeStep_reverse rs' _ acc, mergeContinues_cons2, if_pos hr]
    · rw [show mergeStep (p :: acc) r = r :: p :: acc from by simp [mergeStep, hr]]
      rw [foldl_mergeStep_reverse rs' r (p :: acc), mergeContinues_cons2, if_neg hr]
      simp

theorem foldl_mergeStep_nil (rs : List BiffRecord) :
    (rs.foldl mergeStep []).reverse = mergeContinues rs := by
  cases rs with
  | nil => rfl
  | cons r rs' =>
    rw [List.foldl_cons, show mergeStep [] r = [r] from rfl]
    simpa using foldl_mergeStep_reverse rs' r []

/-- Refinement: the production reader equals raw framing followed by
spec-level CONTINUE splicing. -/
theorem readBiffRecords_eq_merge_raw (buf : List Nat) :
    readBiffRecords buf = mergeContinues (rawBiffRecords buf) := by
  rw [readBiffRecords, rawBiffRecords, readBiffGo_eq_foldl, foldl_mergeStep_nil]

theorem mergeContinues_head : ∀ (n : Nat) (s : BiffRecord) (rest : List BiffRecord),
    rest.length ≤ n → ∃ d tl, mergeContinues (s :: rest) = ⟨s.type, d⟩ :: tl
  | 0, s, rest, h => by
    have hrs : rest = [] := List.eq_nil_of_length_eq_zero (Nat.le_zero.mp h)
    subst hrs
    exact ⟨s.data, [], rfl⟩
  | _+1, s, [], _ => ⟨s.data, [], rfl⟩
  | n+1, s, t :: rest', h => by
    rw [mergeContinues_cons2]
    by_cases ht : t.type = BIFF_CONTINUE
    · rw [if_pos ht]
      exact mergeContinues_head n _ rest' (by simp at h ⊢; omega)
    · rw [if_neg ht]
      exact ⟨s.data, _, rfl⟩

/-- Every record after the first in the spliced stream is not a CONTINUE
(the head can be one: a CONTINUE with no predecessor is kept). -/
theorem mergeContinues_tail_no_continue :
    ∀ (n : Nat) (rs : List BiffRecord), rs.length ≤ n →
      ∀ r ∈ (mergeContinues rs).drop 1, r.type ≠ BIFF_CONTINUE
  | 0, rs, h => by
    have hrs : rs = [] := List.eq_nil_of_length_eq_zero (Nat.le_zero.mp h)
    subst hrs
    simp [mergeContinues, mergeContinuesGo]
  | _+1, [], _ => by simp [mergeContinues, mergeContinuesGo]
  | _+1, [r], _ => by simp [mergeContinues, mergeContinuesGo]
  | n+1, r :: s :: rest, h => by
    rw [mergeContinues_cons2]
    by_cases hs : s.type = BIFF_CONTINUE
    · rw [if_pos hs]
      exact mergeContinues_tail_no_continue n _ (by simp at h ⊢; omega)
    · rw [if_neg hs]
      intro x hx
      rw [List.drop_one, List.tail_cons] at hx
      obtain ⟨d, tl, heq⟩ := mergeContinues_head rest.length s rest le_rfl
      rw [heq] at hx
      rcases List.mem_cons.mp hx with h1 | h2
      · subst h1
        simpa using hs
      · refine mergeContinues_tail_no_continue n (s :: rest) (by simp at h ⊢; omega) x ?hmem
        rw [heq]
        simpa using h2

/-! ## Truncation behaviour: a trailing oversized header ends parsing -/

/-- `junk` frames a record whose declared length exceeds the remaining
bytes: the header fits but the payload does not. -/
def BadBiffTail (junk : List Nat) : Prop :=
  4 ≤ junk.length ∧ junk.length < 4 + u16le junk 2

theorem readBiffGo_fuel (buf : List Nat) :
    ∀ (f1 f2 off : Nat) (acc : List BiffRecord),
      buf.length ≤ 4 * f1 + off → buf.length ≤ 4 * f2 + off →
      readBiffGo buf f1 off acc = readBiffGo buf f2 off acc
  | 0, f2, off, acc, h1, _ => by
    cases f2 with
    | zero => rfl
    | succ f2' =>
      rw [readBiffGo, readBiffGo, if_neg (by omega)]
  | f1+1, 0, off, acc, _, h2 => by
    rw [readBiffGo, readBiffGo, if_neg (by omega)]
  | f1+1, f2+1, off, acc, h1, h2 => by
    rw [readBiffGo, readBiffGo]
    by_cases hc : off + 4 ≤ buf.length
    · rw [if_pos hc, if_pos hc]
      by_cases ho : off + 4 + u16le buf (off + 2) > buf.length
      · rw [if_pos ho, if_pos ho]
      · rw [if_neg ho, if_neg ho]
        exact readBiffGo_fuel buf f1 f2 _ _ (by omega) (by omega)
    · rw [if_neg hc, if_neg hc]

theorem readBiffGo_append (a b : List Nat) :
    ∀ (fuel off : Nat) (acc : List BiffRecord),
      readBiffGo (a ++ b) fuel (a.length + off) acc = readBiffGo b fuel off acc
  | 0, _, _ => rfl
  | fuel+1, off, acc => by
    have e1 : u16le (a ++ b) (a.length + off) = u16le b off := u16le_append_add a b off
    have e2 : u16le (a ++ b) (a.length + off + 2) = u16le b (off + 2) := by
      rw [Nat.add_assoc, u16le_append_add]
    have hlen : (a ++ b).length = a.length + b.length := List.length_append a b
    rw [readBiffGo, readBiffGo]
    by_cases h1 : off + 4 ≤ b.length
    · rw [if_pos h1, if_pos (by omega), e1, e2]
      by_cases h2 : off + 4 + u16le b (off + 2) > b.length
      · rw [if_pos h2, if_pos (by omega)]
      · rw [if_neg h2, if_neg (by omega)]
        have e3 : slice (a ++ b) (a.length + off + 4) (a.length + off + 4 + u16le b (off + 2)) =
            slice b (off + 4) (off + 4 + u16le b (off + 2)) := by
          have := slice_append_add a b (off + 4) (off + 4 + u16le b (off + 2))
          rw [← this]
          congr 1
          omega
        rw [e3, show a.length + off + 4 + u16le b (off + 2) =
          a.length + (off + 4 + u16le b (off + 2)) from by omega]
        rw [readBiffGo_append a b fuel]
    · rw [if_neg h1, if_neg (by omega)]

theorem encodeBiffRecord_length (r : BiffRecord) :
    (encodeBiffRecord r).length = 4 + r.data.length := by
  simp [encodeBiffRecord, u16bytes]
  omega

theorem readBiffGo_encode_peel :
    ∀ (recs : List BiffRecord) (junk : List Nat) (fuel : Nat) (acc : List BiffRecord),
      (∀ r ∈ recs, ValidBiffRecord r) → BadBiffTail junk →
      readBiffGo (encodeBiff recs ++ junk) (recs.length + fuel + 1) 0 acc =
        (recs.foldl mergeStep acc).reverse
  | [], junk, fuel, acc, _, hbad => by
    obtain ⟨hb1, hb2⟩ := hbad
    simp only [encodeBiff, List.map_nil, List.flatten_nil, List.nil_append,
      List.length_nil, Nat.zero_add]
    rw [readBiffGo, if_pos (by omega)]
    simp only [Nat.zero_add]
    rw [if_pos (by omega)]
    rfl
  | r :: recs', junk, fuel, acc, hval, hbad => by
    have hvr : ValidBiffRecord r := hval r (List.mem_cons_self r recs')
    have hassoc : encodeBiff (r :: recs') ++ junk =
        encodeBiffRecord r ++ (encodeBiff recs' ++ junk) := by
      simp [encodeBiff]
    have hjlen : 4 ≤ junk.length := hbad.1
    have hblen : 4 + r.data.length ≤ (encodeBiff (r :: recs') ++ junk).length := by
      rw [hassoc]
      simp [encodeBiffRecord_length]
    have hv1 := hvr.1
    have e1 : u16le (encodeBiff (r :: recs') ++ junk) 0 = r.type := by
      rw [hassoc]
      simp only [encodeBiffRecord, u16bytes, List.cons_append, List.nil_append, u16le,
        List.getD_cons_succ, List.getD_cons_zero]
      omega
    have hv2 := hvr.2
    have e2 : u16le (encodeBiff (r :: recs') ++ junk) 2 = r.data.length := by
      rw [hassoc]
      simp only [encodeBiffRecord, u16bytes, List.cons_append, List.nil_append, u16le,
        List.getD_cons_succ, List.getD_cons_zero]
      omega
    have e3 : slice (encodeBiff (r :: recs') ++ junk) 4 (4 + r.data.length) = r.data := by
      rw [hassoc, encodeBiffRecord, List.append_assoc]
      have h4 : (u16bytes r.type ++ u16bytes r.data.length).length = 4 := by
        simp [u16bytes]
      have hs := slice_append_add (u16bytes r.type ++ u16bytes r.data.length)
        (r.data ++ (encodeBiff recs' ++ junk)) 0 r.data.length
      rw [h4, Nat.add_zero] at hs
      rw [hs, slice, Nat.sub_zero, List.drop_zero, take_append_len]
    have hoff : (4 : Nat) + r.data.length = (encodeBiffRecord r).length + 0 := by
      rw [encodeBiffRecord_length]
      omega
    have hstep : ∀ acc2 : List BiffRecord,
        readBiffGo (encodeBiff (r :: recs') ++ junk) (recs'.length + fuel + 1)
          (4 + r.data.length) acc2 =
        (recs'.foldl mergeStep acc2).reverse := by
      intro acc2
      rw [hassoc, hoff, readBiffGo_append]
      exact readBiffGo_encode_peel recs' junk fuel acc2
        (fun x hx => hval x (List.mem_cons_of_mem r hx)) hbad
    rw [show (r :: recs').length + fuel + 1 = (recs'.length + fuel + 1) + 1 from by
      simp; omega]
    rw [readBiffGo, if_pos (by omega)]
    simp only [Nat.zero_add]
    rw [e1, e2, if_neg (by omega), e3, List.foldl_cons]
    exact hstep (mergeStep acc r)

theorem encodeBiff_length_ge (recs : List BiffRecord) :
    recs.length ≤ (encodeBiff recs).length := by
  induction recs with
  | nil => simp [encodeBiff]
  | cons r rest ih =>
    have : encodeBiff (r :: rest) = encodeBiffRecord r ++ encodeBiff rest := by
      simp [encodeBiff]
    rw [this]
    simp only [List.length_append, List.length_cons, encodeBiffRecord_length]
    omega

/-- A buffer that frames `recs` and then a record whose declared length
overruns the end parses to exactly the spliced `recs`: the malformed tail
terminates parsing and the already-parsed records are returned. -/
theorem readBiffRecords_append_bad (recs : List BiffRecord) (junk : List Nat)
    (hval : ∀ r ∈ recs, ValidBiffRecord r) (hbad : BadBiffTail junk) :
    readBiffRecords (encodeBiff recs ++ junk) = mergeContinues recs := by
  rw [readBiffRecords]
  have hge := encodeBiff_length_ge recs
  have hlen : (encodeBiff recs ++ junk).length + 1 =
      recs.length + ((encodeBiff recs ++ junk).length - recs.length) + 1 := by
    simp only [List.length_append]
    omega
  rw [hlen, readBiffGo_encode_peel recs junk _ [] hval hbad, foldl_mergeStep_nil]

/-! ## Sub-stream attribution (C5): declarative description of the scan -/

/-- Annotate each record with the sub-stream counter and the in-sub-stream
flag *as the scan's collectors observe them* (after the BOF/EOF updates of
the same iteration). -/
def annotateSubstreams : List BiffRecord → Int → Bool → List (BiffRecord × Int × Bool)
  | [], _, _ => []
  | r :: rest, idx, inSub =>
    let idx' := if r.type = BIFF_BOF then idx + 1 else idx
    let inSub' := if r.type = BIFF_EOF then false
      else if r.type = BIFF_BOF then true else inSub
    (r, idx', inSub') :: annotateSubstreams rest idx' inSub'

def annotatedRecords (records : List BiffRecord) : List (BiffRecord × Int × Bool) :=
  annotateSubstreams records (-1) false

/-- What the code actually collects as MsoDrawingGroup data: every 0x00EB
record, from any sub-stream. -/
def specDggBuffers (records : List BiffRecord) : List (List Nat) :=
  (records.filter (fun r => r.type = BIFF_MSODRAWINGGROUP)).map (fun r => r.data)

/-- What the claim says is collected: 0x00EB records of the globals
sub-stream (index 0) only. -/
def specDggGlobalsOnly (records : List BiffRecord) : List (List Nat) :=
  ((annotatedRecords records).filter
    (fun e => e.1.type = BIFF_MSODRAWINGGROUP ∧ e.2.1 = 0)).map (fun e => e.1.data)

/-- Declarative per-sheet MsoDrawing attribution: 0x00EC records seen
inside sub-stream `i ≥ 1` are grouped under worksheet `i - 1`. -/
def specSheetDrawings (records : List BiffRecord) : List (Nat × List (List Nat)) :=
  groupBy (fun e => (e.2.1 - 1).toNat) (fun e => e.1.data)
    ((annotatedRecords records).filter
      (fun e => e.1.type = BIFF_MSODRAWING ∧ e.2.2 ∧ e.2.1 ≥ 1))

theorem collectStep_dgg (st : CollectState) (r : BiffRecord) :
    (collectStep st r).drawingGroupBuffers =
      if r.type = BIFF_MSODRAWINGGROUP
        then st.drawingGroupBuffers ++ [r.data] else st.drawingGroupBuffers := by
  simp only [collectStep, apply_ite CollectState.drawingGroupBuffers]
  split_ifs <;> rfl

theorem collectStep_idx (st : CollectState) (r : BiffRecord) :
    (collectStep st r).substreamIndex =
      if r.type = BIFF_BOF then st.substreamIndex + 1 else st.substreamIndex := by
  simp only [collectStep, apply_ite CollectState.substreamIndex]
  split_ifs <;> rfl

theorem collectStep_inSub (st : CollectState) (r : BiffRecord) :
    (collectStep st r).inSubstream =
      (if r.type = BIFF_EOF then false
        else if r.type = BIFF_BOF then true else st.inSubstream) := by
  simp only [collectStep, apply_ite CollectState.inSubstream]
  split_ifs <;> rfl

theorem collectStep_sheets (st : CollectState) (r : BiffRecord) :
    (collectStep st r).sheetDrawings =
      if r.type = BIFF_MSODRAWING ∧
          (if r.type = BIFF_EOF then false
            else if r.type = BIFF_BOF then true else st.inSubstream) ∧
          (if r.type = BIFF_BOF then st.substreamIndex + 1 else st.substreamIndex) ≥ 1
        then upsertApp
          ((if r.type = BIFF_BOF then st.substreamIndex + 1 else st.substreamIndex) - 1).toNat
          r.data st.sheetDrawings
        else st.sheetDrawings := by
  simp only [collectStep, apply_ite CollectState.sheetDrawings,
    apply_ite CollectState.inSubstream, apply_ite CollectState.substreamIndex]
  split_ifs <;> simp_all

theorem collect_dgg : ∀ (records : List BiffRecord) (st : CollectState),
    (records.foldl collectStep st).drawingGroupBuffers =
      st.drawingGroupBuffers ++ specDggBuffers records
  | [], st => by simp [specDggBuffers]
  | r :: rest, st => by
    rw [List.foldl_cons, collect_dgg rest, collectStep_dgg]
    by_cases h3 : r.type = BIFF_MSODRAWINGGROUP <;>
      simp [h3, specDggBuffers, List.filter_cons]

theorem collect_sheets : ∀ (records : List BiffRecord) (st : CollectState),
    (records.foldl collectStep st).sheetDrawings =
      groupAcc (fun e => (e.2.1 - 1).toNat) (fun e => e.1.data)
        ((annotateSubstreams records st.substreamIndex st.inSubstream).filter
          (fun e => e.1.type = BIFF_MSODRAWING ∧ e.2.2 ∧ e.2.1 ≥ 1))
        st.sheetDrawings
  | [], st => by simp [annotateSubstreams, groupAcc]
  | r :: rest, st => by
    rw [List.foldl_cons, collect_sheets rest (collectStep st r), collectStep_idx,
      collectStep_inSub, collectStep_sheets, annotateSubstreams]
    simp only [List.filter_cons]
    by_cases hc : r.type = BIFF_MSODRAWING ∧
        (if r.type = BIFF_EOF then false
          else if r.type = BIFF_BOF then true else st.inSubstream) = true ∧
        (if r.type = BIFF_BOF then st.substreamIndex + 1 else st.substreamIndex) ≥ 1
    · have hd : (decide (r.type = BIFF_MSODRAWING ∧
          (if r.type = BIFF_EOF then false
            else if r.type = BIFF_BOF then true else st.inSubstream) = true ∧
          (if r.type = BIFF_BOF then st.substreamIndex + 1 else st.substreamIndex) ≥ 1)) =
          true := decide_eq_true hc
      rw [if_pos hc, if_pos hd]
      rfl
    · have hd : ¬ (decide (r.type = BIFF_MSODRAWING ∧
          (if r.type = BIFF_EOF then false
            else if r.type = BIFF_BOF then true else st.inSubstream) = true ∧
          (if r.type = BIFF_BOF then st.substreamIndex + 1 else st.substreamIndex) ≥ 1)) =
          true := by
        simp only [decide_eq_true_eq]
        exact hc
      rw [if_neg hc, if_neg hd]

/-- The scan's two outputs, declaratively. -/
theorem collectDrawings_spec (records : List BiffRecord) :
    (collectDrawings records).drawingGroupBuffers = specDggBuffers records ∧
    (collectDrawings records).sheetDrawings = specSheetDrawings records := by
  constructor
  · rw [collectDrawings, collect_dgg]
    rfl
  · rw [collectDrawings, collect_sheets]
    rfl

/-! ## BSE indexing (C6) -/

/-- `inflateSync` that always takes the `catch` branch (valid: raw data is
not zlib-compressed). -/
def inflateNone : Inflate := fun _ => none

/-- The indexing the claim describes: a 1-based index over the BSE records
only (the first BSE record gets index 1, non-BSE children do not count). -/
def bseRankIndexed : Nat → List EscherRecord → List (Nat × EscherRecord)
  | _, [] => []
  | k, r :: rest =>
    if r.type = ESCHER_BSE then (k + 1, r) :: bseRankIndexed (k + 1) rest
    else bseRankIndexed k rest

/-- The BSE loop as the claim states it: index = rank among BSE records. -/
def specBseLoop (inf : Inflate) (storeData : List Nat) : List BlipInfo :=
  (bseRankIndexed 0 (iterEscherRecords storeData)).filterMap
    (fun p => bseToBlip inf p.1 p.2)

theorem bseToBlip_index (inf : Inflate) (idx : Nat) (rec : EscherRecord)
    (b : BlipInfo) (h : bseToBlip inf idx rec = some b) :
    b.index = idx ∧ rec.type = ESCHER_BSE := by
  by_cases h1 : rec.type = ESCHER_BSE
  · refine ⟨?_, h1⟩
    rw [bseToBlip, if_neg (by simpa using h1)] at h
    dsimp only at h
    split at h
    · exact absurd h (by simp)
    · split at h
      · exact absurd h (by simp)
      · split at h
        · exact absurd h (by simp)
        · split at h
          · exact absurd h (by simp)
          · rw [Option.some_inj] at h
            rw [← h]
  · rw [bseToBlip, if_pos (by simpa using h1)] at h
    exact absurd h (by simp)

/-- `filterMap` into `map`: order-preserving sub-selection. -/
theorem filterMap_map_sublist {α β γ : Type} (f : α → Option β) (g : β → γ)
    (h : α → γ) (hfg : ∀ a b, f a = some b → g b = h a) :
    ∀ l : List α, ((l.filterMap f).map g).Sublist (l.map h)
  | [] => List.Sublist.slnil
  | a :: rest => by
    rw [List.map_cons, List.filterMap_cons]
    cases hfa : f a with
    | none => exact List.Sublist.cons (h a) (filterMap_map_sublist f g h hfg rest)
    | some b =>
      rw [List.map_cons, hfg a b hfa]
      exact List.Sublist.cons₂ (h a) (filterMap_map_sublist f g h hfg rest)

/-- The indices carried by the blips of one BStoreContainer are strictly
increasing (each child record, BSE or not, advances the counter). -/
theorem bseLoop_indices_strict_mono (inf : Inflate) (storeData : List Nat) :
    ((bseLoop inf storeData).map (fun b => b.index)).Pairwise (· < ·) := by
  have hsub : ((bseLoop inf storeData).map (fun b => b.index)).Sublist
      ((iterEscherRecords storeData).enum.map (fun p => p.1 + 1)) := by
    refine filterMap_map_sublist _ _ _ ?_ _
    intro p b hp
    exact (bseToBlip_index inf (p.1 + 1) p.2 b hp).1
  have h1 : ((iterEscherRecords storeData).enum.map Prod.fst).Pairwise (· < ·) := by
    rw [List.enum_map_fst]
    exact List.pairwise_lt_range _
  have h2 : ((iterEscherRecords storeData).enum.map (fun p => p.1 + 1)).Pairwise (· < ·) := by
    refine List.pairwise_map.mpr ((List.pairwise_map.mp h1).imp ?_)
    intro a b hab
    omega
  exact h2.sublist hsub

/-- A blip's index points at a BSE record at that (1-based) child position. -/
theorem bseLoop_index_position (inf : Inflate) (storeData : List Nat)
    (b : BlipInfo) (hb : b ∈ bseLoop inf storeData) :
    1 ≤ b.index ∧
    ∃ rec, (iterEscherRecords storeData)[b.index - 1]? = some rec ∧
      rec.type = ESCHER_BSE := by
  rw [bseLoop] at hb
  obtain ⟨p, hp, hsome⟩ := List.mem_filterMap.mp hb
  obtain ⟨p1, p2⟩ := p
  obtain ⟨hidx, htype⟩ := bseToBlip_index inf (p1 + 1) p2 b hsome
  have hget : (iterEscherRecords storeData)[p1]? = some p2 :=
    List.mk_mem_enum_iff_getElem?.mp hp
  refine ⟨by omega, p2, ?_, htype⟩
  rw [hidx]
  simpa using hget

/-! ## Result-loop lemmas (legacy path) -/

/-- Total base64 charge of an emitted image list (legacy: data is raw
bytes, the charge is the base64-encoded length). -/
def imagesCharge (imgs : List ExtractedImage) : Nat :=
  (imgs.map (fun i => base64Len i.data.length)).sum

/-- Retain an image only if it has a position on sheet `S`, restricting its
positions to `S` — the "filter after the fact" side of the C2 equivalence. -/
def retainRestrict (S : String) (img : ExtractedImage) : Option ExtractedImage :=
  if img.positions.filter (fun p => p.sheet = S) = [] then none
  else some { img with positions := img.positions.filter (fun p => p.sheet = S) }

theorem buildImagesGo_charge (filterOn : Bool) (pm : List (Int × List ImagePosition)) :
    ∀ (blips : List BlipInfo) (total : Nat), total ≤ MAX_IMAGES_SIZE →
      total + imagesCharge (buildImagesGo filterOn pm blips total).1 ≤ MAX_IMAGES_SIZE
  | [], total, h => by simpa [buildImagesGo, imagesCharge] using h
  | blip :: rest, total, h => by
    rw [buildImagesGo]
    by_cases hb : total + base64Len blip.data.length > MAX_IMAGES_SIZE
    · rw [if_pos hb]
      simpa [imagesCharge] using h
    · rw [if_neg hb]
      have ih := buildImagesGo_charge filterOn pm rest
        (total + base64Len blip.data.length) (by omega)
      by_cases hskip : filterOn = true ∧ ((alookup (blip.index : Int) pm).getD []) = []
      · rw [if_pos hskip]
        omega
      · rw [if_neg hskip]
        simp only [imagesCharge, List.map_cons, List.sum_cons, mkXlsImage] at ih ⊢
        omega

theorem buildImagesGo_truncated_indep :
    ∀ (blips : List BlipInfo) (f1 f2 : Bool)
      (pm1 pm2 : List (Int × List ImagePosition)) (total : Nat),
      (buildImagesGo f1 pm1 blips total).2 = (buildImagesGo f2 pm2 blips total).2
  | [], _, _, _, _, _ => rfl
  | blip :: rest, f1, f2, pm1, pm2, total => by
    rw [buildImagesGo, buildImagesGo]
    by_cases hb : total + base64Len blip.data.length > MAX_IMAGES_SIZE
    · rw [if_pos hb, if_pos hb]
    · rw [if_neg hb, if_neg hb]
      have ih := buildImagesGo_truncated_indep rest f1 f2 pm1 pm2
        (total + base64Len blip.data.length)
      by_cases h1 : f1 = true ∧ ((alookup (blip.index : Int) pm1).getD []) = [] <;>
        by_cases h2 : f2 = true ∧ ((alookup (blip.index : Int) pm2).getD []) = []
      · rw [if_pos h1, if_pos h2]
        exact ih
      · rw [if_pos h1, if_neg h2]
        exact ih
      · rw [if_neg h1, if_pos h2]
        exact ih
      · rw [if_neg h1, if_neg h2]
        exact ih

theorem buildImagesGo_complete (filterOn : Bool) (pm : List (Int × List ImagePosition)) :
    ∀ (blips : List BlipInfo) (total : Nat),
      (buildImagesGo filterOn pm blips total).2 = false →
      (buildImagesGo filterOn pm blips total).1 =
        blips.filterMap (fun b =>
          if filterOn = true ∧ ((alookup (b.index : Int) pm).getD []) = [] then none
          else some (mkXlsImage b ((alookup (b.index : Int) pm).getD [])))
  | [], total, _ => by simp [buildImagesGo]
  | blip :: rest, total, htr => by
    rw [buildImagesGo] at htr ⊢
    by_cases hb : total + base64Len blip.data.length > MAX_IMAGES_SIZE
    · rw [if_pos hb] at htr
      exact absurd htr (by simp)
    · rw [if_neg hb] at htr ⊢
      by_cases hskip : filterOn = true ∧ ((alookup (blip.index : Int) pm).getD []) = []
      · rw [if_pos hskip] at htr ⊢
        rw [List.filterMap_cons, if_pos hskip]
        exact buildImagesGo_complete filterOn pm rest _ htr
      · rw [if_neg hskip] at htr ⊢
        dsimp only at htr ⊢
        rw [List.filterMap_cons, if_neg hskip]
        dsimp only
        rw [buildImagesGo_complete filterOn pm rest _ htr]

/-- With a sheet filter active, every emitted image has a position. -/
theorem buildImagesGo_nonempty (pm : List (Int × List ImagePosition)) :
    ∀ (blips : List BlipInfo) (total : Nat),
      ∀ img ∈ (buildImagesGo true pm blips total).1, img.positions ≠ []
  | [], _, img, h => by simp [buildImagesGo] at h
  | blip :: rest, total, img, h => by
    rw [buildImagesGo] at h
    by_cases hb : total + base64Len blip.data.length > MAX_IMAGES_SIZE
    · rw [if_pos hb] at h
      simp at h
    · rw [if_neg hb] at h
      by_cases hskip : (true : Bool) = true ∧ ((alookup (blip.index : Int) pm).getD []) = []
      · rw [if_pos hskip] at h
        exact buildImagesGo_nonempty pm rest _ img h
      · rw [if_neg hskip] at h
        rcases List.mem_cons.mp h with h1 | h2
        · subst h1
          simpa [mkXlsImage] using fun hh => hskip ⟨rfl, hh⟩
        · exact buildImagesGo_nonempty pm rest _ img h2

/-- The emitted images are an order-preserving sub-selection of the blips. -/
theorem buildImagesGo_sublist (filterOn : Bool) (pm : List (Int × List ImagePosition)) :
    ∀ (blips : List BlipInfo) (total : Nat),
      ∃ bs : List BlipInfo, bs.Sublist blips ∧
        (buildImagesGo filterOn pm blips total).1 =
          bs.map (fun b => mkXlsImage b ((alookup (b.index : Int) pm).getD []))
  | [], _ => ⟨[], List.Sublist.slnil, by simp [buildImagesGo]⟩
  | blip :: rest, total => by
    rw [buildImagesGo]
    by_cases hb : total + base64Len blip.data.length > MAX_IMAGES_SIZE
    · rw [if_pos hb]
      exact ⟨[], by simp, by simp⟩
    · rw [if_neg hb]
      obtain ⟨bs, hsub, heq⟩ := buildImagesGo_sublist filterOn pm rest
        (total + base64Len blip.data.length)
      by_cases hskip : filterOn = true ∧ ((alookup (blip.index : Int) pm).getD []) = []
      · rw [if_pos hskip]
        exact ⟨bs, hsub.cons blip, heq⟩
      · rw [if_neg hskip]
        exact ⟨blip :: bs, hsub.cons₂ blip, by simp [heq]⟩

/-- The paired run: filtering inside the loop equals running unfiltered and
retaining/restricting afterwards, provided the position maps are related by
position-level restriction. -/
theorem mkXlsImage_positions (b : BlipInfo) (ps : List ImagePosition) :
    (mkXlsImage b ps).positions = ps := rfl

theorem buildImagesGo_pair (S : String)
    (pmS pmA : List (Int × List ImagePosition))
    (hpm : ∀ idx : Int, (alookup idx pmS).getD [] =
      ((alookup idx pmA).getD []).filter (fun p => p.sheet = S)) :
    ∀ (blips : List BlipInfo) (total : Nat),
      buildImagesGo true pmS blips total =
        (((buildImagesGo false pmA blips total).1).filterMap (retainRestrict S),
         (buildImagesGo false pmA blips total).2)
  | [], total => by simp [buildImagesGo]
  | blip :: rest, total => by
    rw [buildImagesGo, buildImagesGo]
    by_cases hb : total + base64Len blip.data.length > MAX_IMAGES_SIZE
    · rw [if_pos hb, if_pos hb]
      simp
    · rw [if_neg hb, if_neg hb]
      have ih := buildImagesGo_pair S pmS pmA hpm rest (total + base64Len blip.data.length)
      have hA : ¬ ((false : Bool) = true ∧
          ((alookup (blip.index : Int) pmA).getD []) = []) :=
        fun hc => by simpa using hc.1
      rw [if_neg hA]
      dsimp only
      by_cases hempty : ((alookup (blip.index : Int) pmS).getD []) = []
      · have hretain : retainRestrict S
            (mkXlsImage blip ((alookup (blip.index : Int) pmA).getD [])) = none := by
          rw [retainRestrict, mkXlsImage_positions, ← hpm, if_pos hempty]
        have hSkipS : ((true : Bool) = true ∧
            ((alookup (blip.index : Int) pmS).getD []) = []) := ⟨rfl, hempty⟩
        rw [if_pos hSkipS, ih, List.filterMap_cons, hretain]
      · have hretain : retainRestrict S
            (mkXlsImage blip ((alookup (blip.index : Int) pmA).getD [])) =
            some (mkXlsImage blip ((alookup (blip.index : Int) pmS).getD [])) := by
          rw [retainRestrict, mkXlsImage_positions, ← hpm, if_neg hempty]
          rfl
        have hSkipS : ¬ ((true : Bool) = true ∧
            ((alookup (blip.index : Int) pmS).getD []) = []) := fun hc => hempty hc.2
        rw [if_neg hSkipS, ih, List.filterMap_cons, hretain]

/-! ## Sheet tagging and the legacy filter equivalence -/

theorem spContainerAnchor_sheet (s : String) (rec : EscherRecord) :
    ∀ a ∈ spContainerAnchor s rec, a.sheetName = s := by
  intro a ha
  rw [spContainerAnchor] at ha
  split at ha
  · split at ha
    · rcases List.mem_singleton.mp ha with rfl
      rfl
    · simp at ha
  · simp at ha

theorem processContainer_sheet (s : String) :
    ∀ (fuel : Nat) (buf : List Nat), ∀ a ∈ processContainer s fuel buf, a.sheetName = s
  | 0, buf => by simp [processContainer]
  | fuel+1, buf => by
    intro a ha
    rw [processContainer] at ha
    rcases List.mem_append.mp ha with h | h
    · obtain ⟨rec, _, hmem⟩ := List.mem_flatMap.mp h
      by_cases hc : isContainer rec = true
      · rw [if_pos hc] at hmem
        exact processContainer_sheet s fuel rec.data a hmem
      · rw [if_neg hc] at hmem
        by_cases hsp : rec.type = ESCHER_SP_CONTAINER
        · rw [if_pos hsp] at hmem
          exact processContainer_sheet s fuel rec.data a hmem
        · rw [if_neg hsp] at hmem
          simp at hmem
    · obtain ⟨rec, _, hmem⟩ := List.mem_flatMap.mp h
      by_cases hc : rec.type = ESCHER_SP_CONTAINER ∧ isContainer rec = true
      · rw [if_pos hc] at hmem
        exact spContainerAnchor_sheet s rec a hmem
      · rw [if_neg hc] at hmem
        simp at hmem

theorem parseSheetDrawings_sheet (d : List Nat) (s : String) :
    ∀ a ∈ parseSheetDrawings d s, a.sheetName = s :=
  processContainer_sheet s _ d

theorem gatherAnchors_filter (names : List String) (S : String) (hS : S ≠ "") :
    ∀ sheets : List (Nat × List (List Nat)),
      gatherAnchors names (some S) sheets =
        (gatherAnchors names none sheets).filter (fun a => a.sheetName = S)
  | [] => by simp [gatherAnchors]
  | p :: rest => by
    rw [gatherAnchors, gatherAnchors, List.flatMap_cons, List.flatMap_cons,
      List.filter_append, ← gatherAnchors, ← gatherAnchors,
      gatherAnchors_filter names S hS rest]
    congr 1
    dsimp only
    by_cases hlen : p.1 ≥ names.length
    · rw [if_pos hlen, if_pos hlen]
      simp
    · rw [if_neg hlen, if_neg hlen]
      have htr : truthy (some S) = true := by simp [truthy, hS]
      have hfalse : ¬ (truthy none = true ∧
          names.getD p.1 "" ≠ optVal none) := by simp [truthy]
      rw [if_neg hfalse]
      by_cases hname : names.getD p.1 "" = S
      · have : ¬ (truthy (some S) = true ∧ names.getD p.1 "" ≠ optVal (some S)) :=
          fun hc => hc.2 hname
        rw [if_neg this]
        rw [List.filter_eq_self.mpr]
        intro a ha
        rw [parseSheetDrawings_sheet _ _ a ha, hname]
        simp
      · have : (truthy (some S) = true ∧ names.getD p.1 "" ≠ optVal (some S)) :=
          ⟨htr, fun h => hname h⟩
        rw [if_pos this]
        rw [Eq.comm, List.filter_eq_nil_iff]
        intro a ha
        rw [parseSheetDrawings_sheet _ _ a ha]
        simpa using hname

theorem posOf_filter (names : List String) (S : String) (hS : S ≠ "")
    (sheets : List (Nat × List (List Nat))) (idx : Int) :
    (alookup idx (blipPositionsOf (gatherAnchors names (some S) sheets))).getD [] =
      ((alookup idx (blipPositionsOf (gatherAnchors names none sheets))).getD []).filter
        (fun p => p.sheet = S) := by
  rw [blipPositionsOf, blipPositionsOf, getD_alookup_groupBy, getD_alookup_groupBy,
    gatherAnchors_filter names S hS sheets, List.filter_filter, List.filter_map]
  congr 1
  rw [List.filter_filter]
  apply List.filter_congr
  intro a _
  simp [Function.comp, Bool.and_comm]

/-- C2, legacy path: filtering by a (non-empty) sheet name S equals running
unfiltered and then retaining/restricting to S — including the truncation
flag. -/
theorem extractXlsCore_filter (inf : Inflate) (wbBuf : List Nat)
    (names : List String) (S : String) (hS : S ≠ "") :
    extractXlsCore inf wbBuf names (some S) =
      (((extractXlsCore inf wbBuf names none).1).filterMap (retainRestrict S),
       (extractXlsCore inf wbBuf names none).2) := by
  rw [extractXlsCore, extractXlsCore]
  dsimp only
  by_cases h1 : (collectDrawings (readBiffRecords wbBuf)).drawingGroupBuffers = [] ∨
      (collectDrawings (readBiffRecords wbBuf)).drawingGroupBuffers.flatten = []
  · rw [if_pos h1, if_pos h1]
    simp
  · rw [if_neg h1, if_neg h1]
    by_cases h2 : extractBlipsFromDrawingGroup inf
        (collectDrawings (readBiffRecords wbBuf)).drawingGroupBuffers.flatten = []
    · rw [if_pos h2, if_pos h2]
      simp
    · rw [if_neg h2, if_neg h2]
      have htr : truthy (some S) = true := by simp [truthy, hS]
      rw [htr, show truthy none = false from rfl]
      exact buildImagesGo_pair S _ _
        (fun idx => posOf_filter names S hS _ idx) _ 0

/-! ## OOXML emission lemmas -/

/-- Total charge of an OOXML image list (data is already base64 text). -/
def ooxmlCharge (imgs : List ExtractedImage) : Nat :=
  (imgs.map (fun i => i.data.length)).sum

theorem emitMapped_charge (media : List (String × MediaVal)) :
    ∀ (entries : List (String × List ImagePosition)) (total : Nat),
      total ≤ MAX_IMAGES_SIZE →
      total + ooxmlCharge (emitMapped media entries total).1 ≤ MAX_IMAGES_SIZE ∧
      (emitMapped media entries total).2.2 =
        total + ooxmlCharge (emitMapped media entries total).1
  | [], total, h => by simpa [emitMapped, ooxmlCharge] using h
  | e :: rest, total, h => by
    rw [emitMapped]
    cases hm : alookup e.1 media with
    | none => exact emitMapped_charge media rest total h
    | some m =>
      dsimp only
      by_cases hb : total + m.data.length > MAX_IMAGES_SIZE
      · rw [if_pos hb]
        simpa [ooxmlCharge] using h
      · rw [if_neg hb]
        have ih := emitMapped_charge media rest (total + m.data.length) (by omega)
        dsimp only
        simp only [ooxmlCharge, List.map_cons, List.sum_cons] at ih ⊢
        omega

theorem emitUnmapped_charge (im : List (String × List ImagePosition)) :
    ∀ (entries : List (String × MediaVal)) (total : Nat),
      total ≤ MAX_IMAGES_SIZE →
      total + ooxmlCharge (emitUnmapped im entries total).1 ≤ MAX_IMAGES_SIZE
  | [], total, h => by simpa [emitUnmapped, ooxmlCharge] using h
  | e :: rest, total, h => by
    rw [emitUnmapped]
    by_cases h1 : ¬jsStartsWith e.1 "xl/media/" = true
    · rw [if_pos h1]
      exact emitUnmapped_charge im rest total h
    · rw [if_neg h1]
      by_cases h2 : (alookup e.1 im).isSome = true
      · rw [if_pos h2]
        exact emitUnmapped_charge im rest total h
      · rw [if_neg h2]
        by_cases hb : total + e.2.data.length > MAX_IMAGES_SIZE
        · rw [if_pos hb]
          simpa [ooxmlCharge] using h
        · rw [if_neg hb]
          have ih := emitUnmapped_charge im rest (total + e.2.data.length) (by omega)
          dsimp only
          simp only [ooxmlCharge, List.map_cons, List.sum_cons] at ih ⊢
          omega

theorem emitMapped_complete (media : List (String × MediaVal)) :
    ∀ (entries : List (String × List ImagePosition)) (total : Nat),
      (emitMapped media entries total).2.1 = false →
      (emitMapped media entries total).1 =
        entries.filterMap (fun e => (alookup e.1 media).map
          (fun m => ⟨jsLast (jsSplit '/' e.1), m.mimeType, m.data, e.2⟩))
  | [], _, _ => by simp [emitMapped]
  | e :: rest, total, htr => by
    rw [emitMapped] at htr ⊢
    rw [List.filterMap_cons]
    cases hm : alookup e.1 media with
    | none =>
      rw [hm] at htr
      dsimp only at htr
      simp only [Option.map_none']
      exact emitMapped_complete media rest total htr
    | some m =>
      rw [hm] at htr
      dsimp only at htr
      simp only [Option.map_some']
      by_cases hb : total + m.data.length > MAX_IMAGES_SIZE
      · rw [if_pos hb] at htr
        exact absurd htr (by simp)
      · rw [if_neg hb] at htr ⊢
        dsimp only at htr ⊢
        rw [emitMapped_complete media rest (total + m.data.length) htr]

theorem emitUnmapped_positions (im : List (String × List ImagePosition)) :
    ∀ (entries : List (String × MediaVal)) (total : Nat),
      ∀ img ∈ (emitUnmapped im entries total).1, img.positions = []
  | [], _, img, h => by simp [emitUnmapped] at h
  | e :: rest, total, img, h => by
    rw [emitUnmapped] at h
    by_cases h1 : ¬jsStartsWith e.1 "xl/media/" = true
    · rw [if_pos h1] at h
      exact emitUnmapped_positions im rest total img h
    · rw [if_neg h1] at h
      by_cases h2 : (alookup e.1 im).isSome = true
      · rw [if_pos h2] at h
        exact emitUnmapped_positions im rest total img h
      · rw [if_neg h2] at h
        by_cases hb : total + e.2.data.length > MAX_IMAGES_SIZE
        · rw [if_pos hb] at h
          simp at h
        · rw [if_neg hb] at h
          dsimp only at h
          rcases List.mem_cons.mp h with h3 | h3
          · rw [h3]
          · exact emitUnmapped_positions im rest _ img h3

theorem emitUnmapped_mem (im : List (String × List ImagePosition)) :
    ∀ (entries : List (String × MediaVal)) (total : Nat),
      (emitUnmapped im entries total).2 = false →
      ∀ e ∈ entries, jsStartsWith e.1 "xl/media/" = true → alookup e.1 im = none →
        (⟨jsLast (jsSplit '/' e.1), e.2.mimeType, e.2.data, []⟩ : ExtractedImage) ∈
          (emitUnmapped im entries total).1
  | [], _, _, e, he, _, _ => by simp at he
  | e0 :: rest, total, htr, e, he, hsw, hnm => by
    rw [emitUnmapped] at htr ⊢
    by_cases h1 : ¬jsStartsWith e0.1 "xl/media/" = true
    · rw [if_pos h1] at htr ⊢
      rcases List.mem_cons.mp he with rfl | he'
      · exact absurd hsw (by simpa using h1)
      · exact emitUnmapped_mem im rest total htr e he' hsw hnm
    · rw [if_neg h1] at htr ⊢
      by_cases h2 : (alookup e0.1 im).isSome = true
      · rw [if_pos h2] at htr ⊢
        rcases List.mem_cons.mp he with rfl | he'
        · rw [hnm] at h2
          simp at h2
        · exact emitUnmapped_mem im rest total htr e he' hsw hnm
      · rw [if_neg h2] at htr ⊢
        by_cases hb : total + e0.2.data.length > MAX_IMAGES_SIZE
        · rw [if_pos hb] at htr
          exact absurd htr (by simp)
        · rw [if_neg hb] at htr ⊢
          dsimp only at htr ⊢
          rcases List.mem_cons.mp he with rfl | he'
          · exact List.mem_cons_self _ _
          · exact List.mem_cons_of_mem _
              (emitUnmapped_mem im rest _ htr e he' hsw hnm)

/-! ## OOXML sheet filter equivalence -/

theorem alookup_nil {κ γ : Type} [DecidableEq κ] (k : κ) :
    alookup k ([] : List (κ × γ)) = none := rfl

theorem sheetMappings_sheet (env : OoxmlEnv) (c p : String) :
    ∀ m ∈ sheetMappings env c p, m.position.sheet = c := by
  intro m hm
  simp only [sheetMappings] at hm
  split at hm
  · simp at hm
  · obtain ⟨t, _, hm⟩ := List.mem_flatMap.mp hm
    split at hm
    · simp at hm
    · obtain ⟨anchor, _, hm⟩ := List.mem_flatMap.mp hm
      by_cases he : anchor.embeds = []
      · rw [if_pos he] at hm
        simp at hm
      · rw [if_neg he] at hm
        obtain ⟨rid, _, hsome⟩ := List.mem_filterMap.mp hm
        split at hsome
        · simp at hsome
        · rw [Option.some_inj] at hsome
          rw [← hsome]

theorem mappingsOver_filter (names : List String) (env : OoxmlEnv) (S : String)
    (hS : S ≠ "") :
    ∀ l : List (String × Nat),
      l.flatMap (fun p =>
          let currentSheetName := names.getD p.2 ""
          if truthy (some S) ∧ currentSheetName ≠ optVal (some S) then []
          else sheetMappings env currentSheetName p.1) =
      (l.flatMap (fun p =>
          let currentSheetName := names.getD p.2 ""
          if truthy none ∧ currentSheetName ≠ optVal none then []
          else sheetMappings env currentSheetName p.1)).filter
        (fun m => m.position.sheet = S)
  | [] => by simp
  | p :: rest => by
    rw [List.flatMap_cons, List.flatMap_cons, List.filter_append,
      ← mappingsOver_filter names env S hS rest]
    congr 1
    dsimp only
    have htr : truthy (some S) = true := by simp [truthy, hS]
    have hfalse : ¬ (truthy none = true ∧ names.getD p.2 "" ≠ optVal none) := by
      simp [truthy]
    rw [if_neg hfalse]
    by_cases hname : names.getD p.2 "" = S
    · have : ¬ (truthy (some S) = true ∧ names.getD p.2 "" ≠ optVal (some S)) :=
        fun hc => hc.2 hname
      rw [if_neg this]
      rw [List.filter_eq_self.mpr]
      intro m hmem
      rw [sheetMappings_sheet _ _ _ m hmem, hname]
      simp
    · have : (truthy (some S) = true ∧ names.getD p.2 "" ≠ optVal (some S)) :=
        ⟨htr, fun h => hname h⟩
      rw [if_pos this]
      rw [Eq.comm, List.filter_eq_nil_iff]
      intro m hmem
      rw [sheetMappings_sheet _ _ _ m hmem]
      simpa using hname

theorem imageMappingsOf_filter (names : List String) (env : OoxmlEnv)
    (S : String) (hS : S ≠ "") :
    imageMappingsOf names env (some S) =
      (imageMappingsOf names env none).filter (fun m => m.position.sheet = S) := by
  rw [imageMappingsOf, imageMappingsOf]
  exact mappingsOver_filter names env S hS (sheetFileMapOf names env)

theorem ooxmlBucket_filter (names : List String) (env : OoxmlEnv) (S : String)
    (hS : S ≠ "") (p : String) :
    ((imageMappingsOf names env (some S)).filter (fun m => m.imagePath = p)).map
        (fun m => m.position) =
      (((imageMappingsOf names env none).filter (fun m => m.imagePath = p)).map
        (fun m => m.position)).filter (fun q => q.sheet = S) := by
  rw [imageMappingsOf_filter names env S hS, List.filter_filter, List.filter_map]
  congr 1
  rw [List.filter_filter]
  apply List.filter_congr
  intro a _
  simp [Function.comp, Bool.and_comm]

/-- The filtered OOXML run, characterised (truncation-free): the grouped
mappings, each emitted when its media entry resolves. -/
theorem extractOoxmlCore_some_images (names : List String) (env : OoxmlEnv)
    (S : String) (hS : S ≠ "")
    (htr : (extractOoxmlCore names env (some S)).2 = false) :
    (extractOoxmlCore names env (some S)).1 =
      (groupBy (fun m => m.imagePath) (fun m => m.position)
          (imageMappingsOf names env (some S))).filterMap
        (fun e => (alookup e.1 (mediaFilesOf env.zipEntries)).map
          (fun m => ⟨jsLast (jsSplit '/' e.1), m.mimeType, m.data, e.2⟩)) := by
  rw [extractOoxmlCore] at htr ⊢
  by_cases hmed : mediaFilesOf env.zipEntries = []
  · rw [if_pos hmed]
    rw [Eq.comm, List.eq_nil_iff_forall_not_mem]
    intro img hmem
    obtain ⟨e, _, hsome⟩ := List.mem_filterMap.mp hmem
    rw [hmed, alookup_nil] at hsome
    simp at hsome
  · rw [if_neg hmed] at htr ⊢
    have htrth : ¬ ((¬(emitMapped (mediaFilesOf env.zipEntries)
        (groupBy (fun m => m.imagePath) (fun m => m.position)
          (imageMappingsOf names env (some S))) 0).2.1 = true) ∧
        ¬ truthy (some S) = true) := by
      intro hc
      exact hc.2 (by simp [truthy, hS])
    rw [if_neg htrth] at htr ⊢
    exact emitMapped_complete _ _ _ htr

/-- The unfiltered OOXML run under `truncated = false`: both loops ran to
completion and the images are loop-1 output followed by loop-2 output. -/
theorem extractOoxmlCore_none_split (names : List String) (env : OoxmlEnv)
    (htr : (extractOoxmlCore names env none).2 = false)
    (hmed : mediaFilesOf env.zipEntries ≠ []) :
    (emitMapped (mediaFilesOf env.zipEntries)
        (groupBy (fun m => m.imagePath) (fun m => m.position)
          (imageMappingsOf names env none)) 0).2.1 = false ∧
    (emitUnmapped (groupBy (fun m => m.imagePath) (fun m => m.position)
          (imageMappingsOf names env none)) (mediaFilesOf env.zipEntries)
        (emitMapped (mediaFilesOf env.zipEntries)
          (groupBy (fun m => m.imagePath) (fun m => m.position)
            (imageMappingsOf names env none)) 0).2.2).2 = false ∧
    (extractOoxmlCore names env none).1 =
      (emitMapped (mediaFilesOf env.zipEntries)
          (groupBy (fun m => m.imagePath) (fun m => m.position)
            (imageMappingsOf names env none)) 0).1 ++
        (emitUnmapped (groupBy (fun m => m.imagePath) (fun m => m.position)
            (imageMappingsOf names env none)) (mediaFilesOf env.zipEntries)
          (emitMapped (mediaFilesOf env.zipEntries)
            (groupBy (fun m => m.imagePath) (fun m => m.position)
              (imageMappingsOf names env none)) 0).2.2).1 := by
  rw [extractOoxmlCore] at htr ⊢
  rw [if_neg hmed] at htr ⊢
  by_cases h1 : (emitMapped (mediaFilesOf env.zipEntries)
      (groupBy (fun m => m.imagePath) (fun m => m.position)
        (imageMappingsOf names env none)) 0).2.1 = true
  · have hcond : ¬ ((¬(emitMapped (mediaFilesOf env.zipEntries)
        (groupBy (fun m => m.imagePath) (fun m => m.position)
          (imageMappingsOf names env none)) 0).2.1 = true) ∧
        ¬ truthy none = true) := fun hc => hc.1 h1
    rw [if_neg hcond] at htr
    dsimp only at htr
    rw [htr] at h1
    simp at h1
  · have hcond : ((¬(emitMapped (mediaFilesOf env.zipEntries)
        (groupBy (fun m => m.imagePath) (fun m => m.position)
          (imageMappingsOf names env none)) 0).2.1 = true) ∧
        ¬ truthy none = true) := ⟨h1, by simp [truthy]⟩
    rw [if_pos hcond] at htr ⊢
    dsimp only at htr ⊢
    exact ⟨by simpa using h1, htr, rfl⟩

/-- C2, OOXML path, truncation-free: filtering by sheet S yields exactly
the unfiltered images that survive retain-and-restrict to S. -/
theorem extractOoxmlCore_filter (names : List String) (env : OoxmlEnv) (S : String)
    (hS : S ≠ "")
    (htrS : (extractOoxmlCore names env (some S)).2 = false)
    (htrA : (extractOoxmlCore names env none).2 = false) (img : ExtractedImage) :
    img ∈ (extractOoxmlCore names env (some S)).1 ↔
      img ∈ ((extractOoxmlCore names env none).1).filterMap (retainRestrict S) := by
  by_cases hmed : mediaFilesOf env.zipEntries = []
  · have hA : (extractOoxmlCore names env none).1 = [] := by
      rw [extractOoxmlCore, if_pos hmed]
    have hB : (extractOoxmlCore names env (some S)).1 = [] := by
      rw [extractOoxmlCore, if_pos hmed]
    rw [hA, hB]
    simp
  · obtain ⟨h1A, _, hsplit⟩ := extractOoxmlCore_none_split names env htrA hmed
    rw [extractOoxmlCore_some_images names env S hS htrS, hsplit, List.filterMap_append]
    have hun : ((emitUnmapped (groupBy (fun m => m.imagePath) (fun m => m.position)
          (imageMappingsOf names env none)) (mediaFilesOf env.zipEntries)
          (emitMapped (mediaFilesOf env.zipEntries)
            (groupBy (fun m => m.imagePath) (fun m => m.position)
              (imageMappingsOf names env none)) 0).2.2).1).filterMap
        (retainRestrict S) = [] := by
      rw [List.filterMap_eq_nil_iff]
      intro u hu
      have hpos := emitUnmapped_positions _ _ _ u hu
      rw [retainRestrict, hpos]
      simp
    rw [hun, List.append_nil, emitMapped_complete _ _ _ h1A, List.filterMap_filterMap]
    constructor
    · intro himg
      obtain ⟨e, he, hsome⟩ := List.mem_filterMap.mp himg
      obtain ⟨e1, e2⟩ := e
      cases hmm : alookup e1 (mediaFilesOf env.zipEntries) with
      | none =>
        rw [hmm] at hsome
        simp at hsome
      | some m =>
        rw [hmm, Option.map_some', Option.some_inj] at hsome
        rw [mem_groupBy_iff] at he
        obtain ⟨hbucket, hne⟩ := he
        have hb := ooxmlBucket_filter names env S hS e1
        have hbAne : ((imageMappingsOf names env none).filter
            (fun m => m.imagePath = e1)).map (fun m => m.position) ≠ [] := by
          intro h0
          apply hne
          rw [← hbucket, hb, h0]
          rfl
        refine List.mem_filterMap.mpr
          ⟨(e1, ((imageMappingsOf names env none).filter
            (fun m => m.imagePath = e1)).map (fun m => m.position)),
           (mem_groupBy_iff _ _ _ _ _).mpr ⟨rfl, hbAne⟩, ?_⟩
        rw [hmm, Option.map_some', Option.some_bind]
        rw [retainRestrict]
        dsimp only
        rw [← hb, hbucket, if_neg hne]
        rw [hsome]
    · intro himg
      obtain ⟨e, he, hsome⟩ := List.mem_filterMap.mp himg
      obtain ⟨e1, e2⟩ := e
      cases hmm : alookup e1 (mediaFilesOf env.zipEntries) with
      | none =>
        rw [hmm] at hsome
        simp at hsome
      | some m =>
        rw [hmm, Option.map_some', Option.some_bind, retainRestrict] at hsome
        dsimp only at hsome
        by_cases hflt : e2.filter (fun p => p.sheet = S) = []
        · rw [if_pos hflt] at hsome
          simp at hsome
        · rw [if_neg hflt, Option.some_inj] at hsome
          rw [mem_groupBy_iff] at he
          obtain ⟨hbucket, _⟩ := he
          have hb := ooxmlBucket_filter names env S hS e1
          rw [hbucket] at hb
          refine List.mem_filterMap.mpr
            ⟨(e1, e2.filter (fun p => p.sheet = S)),
             (mem_groupBy_iff _ _ _ _ _).mpr ⟨hb, hflt⟩, ?_⟩
          rw [hmm, Option.map_some', Option.some_inj, ← hsome]

/-! ## Escher stream framing: a malformed record ends the level (C9) -/

def u32bytes (n : Nat) : List Nat :=
  [n % 256, n / 256 % 256, n / 65536 % 256, n / 16777216 % 256]

/-- A well-formed Escher record, pre-encoding. -/
structure EscherChunk where
  ver : Nat
  inst : Nat
  ty : Nat
  payload : List Nat
  deriving DecidableEq

def ValidEscherChunk (c : EscherChunk) : Prop :=
  c.ver < 16 ∧ c.inst < 4096 ∧ c.ty < 65536 ∧ c.payload.length < 2147483648

/-- The 8-byte Escher header of a chunk. -/
def escherHeader (c : EscherChunk) : List Nat :=
  u16bytes (c.ver + 16 * c.inst) ++ u16bytes c.ty ++ u32bytes c.payload.length

def encodeEscherRecord (c : EscherChunk) : List Nat :=
  escherHeader c ++ c.payload

def encodeEscherList (cs : List EscherChunk) : List Nat :=
  (cs.map encodeEscherRecord).flatten

theorem escherHeader_length (c : EscherChunk) : (escherHeader c).length = 8 := by
  simp [escherHeader, u16bytes, u32bytes]

theorem encodeEscherRecord_length (c : EscherChunk) :
    (encodeEscherRecord c).length = 8 + c.payload.length := by
  rw [encodeEscherRecord, List.length_append, escherHeader_length]

theorem u32le_append_add (a b : List Nat) (i : Nat) :
    u32le (a ++ b) (a.length + i) = u32le b i := by
  have h1 := getD_append_add a b i
  have h2 := getD_append_add a b (i + 1)
  have h3 := getD_append_add a b (i + 2)
  have h4 := getD_append_add a b (i + 3)
  rw [u32le, u32le, h1, Nat.add_assoc a.length i 1, h2,
    show a.length + i + 2 = a.length + (i + 2) from by omega, h3,
    show a.length + i + 3 = a.length + (i + 3) from by omega, h4]

theorem readEscherRecord_shift_none (a b : List Nat) (off : Nat)
    (h : readEscherRecord b off = none) :
    readEscherRecord (a ++ b) (a.length + off) = none := by
  rw [readEscherRecord] at h
  rw [readEscherRecord]
  by_cases hc1 : off + 8 > b.length
  · rw [if_pos (by simp only [List.length_append]; omega)]
  · rw [if_neg hc1] at h
    rw [if_neg (by simp only [List.length_append]; omega)]
    dsimp only at h ⊢
    have e4 : i32le (a ++ b) (a.length + off + 4) = i32le b (off + 4) := by
      rw [i32le, i32le, show a.length + off + 4 = a.length + (off + 4) from by omega,
        u32le_append_add]
    rw [e4]
    by_cases hc2 : i32le b (off + 4) < 0 ∨
        (off : Int) + 8 + i32le b (off + 4) > (b.length : Int)
    · have hg : i32le b (off + 4) < 0 ∨
          ((a.length + off : Nat) : Int) + 8 + i32le b (off + 4) >
            (((a ++ b).length : Nat) : Int) := by
        rcases hc2 with hl | hr
        · exact Or.inl hl
        · right
          simp only [List.length_append]
          push_cast at hr ⊢
          omega
      rw [if_pos hg]
    · rw [if_neg hc2] at h
      exact absurd h (by simp)

theorem readEscherRecord_encode (a b : List Nat) (c : EscherChunk)
    (hc : ValidEscherChunk c) :
    readEscherRecord (a ++ (encodeEscherRecord c ++ b)) a.length =
      some ⟨c.ver, c.inst, c.ty, c.payload.length, c.payload, a.length⟩ := by
  obtain ⟨hv, hi, ht, hp⟩ := hc
  have hX : encodeEscherRecord c ++ b =
      (c.ver + 16 * c.inst) % 256 :: (c.ver + 16 * c.inst) / 256 % 256 ::
      c.ty % 256 :: c.ty / 256 % 256 ::
      c.payload.length % 256 :: c.payload.length / 256 % 256 ::
      c.payload.length / 65536 % 256 :: c.payload.length / 16777216 % 256 ::
      (c.payload ++ b) := by
    simp [encodeEscherRecord, escherHeader, u16bytes, u32bytes]
  have hlen : (a ++ (encodeEscherRecord c ++ b)).length =
      a.length + (8 + c.payload.length + b.length) := by
    simp only [List.length_append, encodeEscherRecord_length]
  have r0 : u16le (a ++ (encodeEscherRecord c ++ b)) a.length =
      c.ver + 16 * c.inst := by
    have := u16le_append_add a (encodeEscherRecord c ++ b) 0
    rw [Nat.add_zero] at this
    rw [this, hX]
    show (c.ver + 16 * c.inst) % 256 + 256 * ((c.ver + 16 * c.inst) / 256 % 256) = _
    omega
  have r2 : u16le (a ++ (encodeEscherRecord c ++ b)) (a.length + 2) = c.ty := by
    rw [u16le_append_add, hX]
    show c.ty % 256 + 256 * (c.ty / 256 % 256) = _
    omega
  have r4 : u32le (a ++ (encodeEscherRecord c ++ b)) (a.length + 4) =
      c.payload.length := by
    rw [u32le_append_add, hX]
    show c.payload.length % 256 + 256 * (c.payload.length / 256 % 256) +
      65536 * (c.payload.length / 65536 % 256) +
      16777216 * (c.payload.length / 16777216 % 256) = _
    omega
  have r4i : i32le (a ++ (encodeEscherRecord c ++ b)) (a.length + 4) =
      (c.payload.length : Int) := by
    rw [i32le, r4, if_pos (by omega)]
  have hslice : slice (a ++ (encodeEscherRecord c ++ b)) (a.length + 8)
      (a.length + 8 + c.payload.length) = c.payload := by
    have hsplit : a ++ (encodeEscherRecord c ++ b) =
        (a ++ escherHeader c) ++ (c.payload ++ b) := by
      rw [encodeEscherRecord, List.append_assoc, List.append_assoc]
    rw [hsplit]
    have hlen8 : a.length + 8 = (a ++ escherHeader c).length + 0 := by
      simp [escherHeader_length]
    rw [hlen8]
    rw [show (a ++ escherHeader c).length + 0 + c.payload.length =
      (a ++ escherHeader c).length + c.payload.length from by omega]
    rw [slice_append_add, slice, Nat.sub_zero, List.drop_zero, take_append_len]
  rw [readEscherRecord]
  rw [if_neg (by rw [hlen]; omega)]
  dsimp only
  rw [r0, r2, r4i]
  rw [if_neg (by
    rw [hlen]
    push_cast
    omega)]
  rw [Option.some_inj]
  rw [show (c.ver + 16 * c.inst) % 16 = c.ver from by omega,
    show (c.ver + 16 * c.inst) / 16 % 4096 = c.inst from by omega,
    show ((c.payload.length : Int)).toNat = c.payload.length from by omega,
    hslice]

theorem encodeEscherList_cons (c : EscherChunk) (cs : List EscherChunk) :
    encodeEscherList (c :: cs) = encodeEscherRecord c ++ encodeEscherList cs := by
  simp [encodeEscherList]

theorem encodeEscherList_length_ge (cs : List EscherChunk) :
    cs.length ≤ (encodeEscherList cs).length := by
  induction cs with
  | nil => simp [encodeEscherList]
  | cons c rest ih =>
    rw [encodeEscherList_cons, List.length_append, encodeEscherRecord_length]
    simp only [List.length_cons]
    omega

theorem iterEscherGo_encode :
    ∀ (chunks : List EscherChunk) (junk pre : List Nat) (f1 f2 : Nat),
      (∀ c ∈ chunks, ValidEscherChunk c) → readEscherRecord junk 0 = none →
      iterEscherGo (pre ++ (encodeEscherList chunks ++ junk))
          (chunks.length + f1 + 1) pre.length =
        iterEscherGo (pre ++ encodeEscherList chunks)
          (chunks.length + f2 + 1) pre.length
  | [], junk, pre, f1, f2, _, hbad => by
    simp only [encodeEscherList, List.map_nil, List.flatten_nil, List.nil_append,
      List.append_nil, List.length_nil, Nat.zero_add]
    rw [iterEscherGo, iterEscherGo]
    by_cases hj : pre.length < (pre ++ junk).length
    · rw [if_pos hj]
      have := readEscherRecord_shift_none pre junk 0 hbad
      rw [Nat.add_zero] at this
      rw [this, if_neg (by omega)]
    · rw [if_neg hj, if_neg (by omega)]
  | c :: rest, junk, pre, f1, f2, hval, hbad => by
    have hvc : ValidEscherChunk c := hval c (List.mem_cons_self c rest)
    have hL : pre ++ (encodeEscherList (c :: rest) ++ junk) =
        pre ++ (encodeEscherRecord c ++ (encodeEscherList rest ++ junk)) := by
      rw [encodeEscherList_cons, List.append_assoc]
    have hR : pre ++ encodeEscherList (c :: rest) =
        pre ++ (encodeEscherRecord c ++ encodeEscherList rest) := by
      rw [encodeEscherList_cons]
    rw [hL, hR]
    rw [show (c :: rest).length + f1 + 1 = (rest.length + f1 + 1) + 1 from by
      simp; omega]
    rw [show (c :: rest).length + f2 + 1 = (rest.length + f2 + 1) + 1 from by
      simp; omega]
    rw [iterEscherGo, iterEscherGo]
    rw [if_pos (by simp only [List.length_append, encodeEscherRecord_length]; omega),
      if_pos (by simp only [List.length_append, encodeEscherRecord_length]; omega)]
    rw [readEscherRecord_encode pre _ c hvc, readEscherRecord_encode pre _ c hvc]
    have hoff : pre.length + 8 + c.payload.length =
        (pre ++ encodeEscherRecord c).length := by
      simp [encodeEscherRecord_length]
      omega
    have hre1 : pre ++ (encodeEscherRecord c ++ (encodeEscherList rest ++ junk)) =
        (pre ++ encodeEscherRecord c) ++ (encodeEscherList rest ++ junk) := by
      rw [List.append_assoc]
    have hre2 : pre ++ (encodeEscherRecord c ++ encodeEscherList rest) =
        (pre ++ encodeEscherRecord c) ++ encodeEscherList rest := by
      rw [List.append_assoc]
    dsimp only
    rw [hoff, hre1, hre2,
      iterEscherGo_encode rest junk (pre ++ encodeEscherRecord c) f1 f2
        (fun x hx => hval x (List.mem_cons_of_mem c hx)) hbad]

/-- A level of Escher records followed by a malformed header parses exactly
as if the malformed tail were absent: the bad record ends that level's
iteration and the records before it are kept. -/
theorem iterEscherRecords_append_bad (chunks : List EscherChunk) (junk : List Nat)
    (hval : ∀ c ∈ chunks, ValidEscherChunk c)
    (hbad : readEscherRecord junk 0 = none) :
    iterEscherRecords (encodeEscherList chunks ++ junk) =
      iterEscherRecords (encodeEscherList chunks) := by
  rw [iterEscherRecords, iterEscherRecords]
  have hge := encodeEscherList_length_ge chunks
  have h1 : (encodeEscherList chunks ++ junk).length + 1 =
      chunks.length + ((encodeEscherList chunks ++ junk).length - chunks.length) + 1 := by
    simp only [List.length_append]
    omega
  have h2 : (encodeEscherList chunks).length + 1 =
      chunks.length + ((encodeEscherList chunks).length - chunks.length) + 1 := by
    omega
  rw [h1, h2]
  have := iterEscherGo_encode chunks junk []
    ((encodeEscherList chunks ++ junk).length - chunks.length)
    ((encodeEscherList chunks).length - chunks.length) hval hbad
  simpa using this

/-! ## Position provenance: every emitted position names a real sheet (C8) -/

theorem getD_mem_of_lt {α : Type} (l : List α) (n : Nat) (d : α)
    (h : n < l.length) : l.getD n d ∈ l := by
  rw [List.getD_eq_getElem l d h]
  exact List.getElem_mem h

theorem gatherAnchors_sheet_mem (names : List String) (sn : Option String)
    (sheets : List (Nat × List (List Nat))) :
    ∀ a ∈ gatherAnchors names sn sheets, a.sheetName ∈ names := by
  intro a ha
  rw [gatherAnchors] at ha
  obtain ⟨p, _, hmem⟩ := List.mem_flatMap.mp ha
  by_cases h1 : p.1 ≥ names.length
  · rw [if_pos h1] at hmem
    simp at hmem
  · rw [if_neg h1] at hmem
    dsimp only at hmem
    by_cases h2 : truthy sn = true ∧ names.getD p.1 "" ≠ optVal sn
    · rw [if_pos h2] at hmem
      simp at hmem
    · rw [if_neg h2] at hmem
      rw [parseSheetDrawings_sheet _ _ a hmem]
      exact getD_mem_of_lt names p.1 "" (by omega)

theorem extractXlsCore_sheet_mem (inf : Inflate) (wb : List Nat)
    (names : List String) (sn : Option String) :
    ∀ img ∈ (extractXlsCore inf wb names sn).1, ∀ q ∈ img.positions,
      q.sheet ∈ names := by
  intro img himg q hq
  rw [extractXlsCore] at himg
  dsimp only at himg
  split at himg
  · simp at himg
  · split at himg
    · simp at himg
    · obtain ⟨bs, _, heq⟩ := buildImagesGo_sublist (truthy sn)
        (blipPositionsOf (gatherAnchors names sn
          (collectDrawings (readBiffRecords wb)).sheetDrawings))
        (extractBlipsFromDrawingGroup inf
          (collectDrawings (readBiffRecords wb)).drawingGroupBuffers.flatten) 0
      rw [heq] at himg
      obtain ⟨b, _, hb⟩ := List.mem_map.mp himg
      rw [← hb, mkXlsImage_positions] at hq
      rw [blipPositionsOf, getD_alookup_groupBy] at hq
      obtain ⟨a, hafil, hav⟩ := List.mem_map.mp hq
      rw [← hav]
      exact gatherAnchors_sheet_mem names sn _ a (List.mem_of_mem_filter hafil)

/-- `foldl` preserves an invariant of the accumulator. -/
theorem foldl_inv {α β : Type} (P : β → Prop) (f : β → α → β)
    (hf : ∀ b a, P b → P (f b a)) :
    ∀ (l : List α) (b : β), P b → P (l.foldl f b)
  | [], _, hb => hb
  | a :: rest, b, hb => foldl_inv P f hf rest (f b a) (hf b a hb)

theorem mapSet_forall {κ γ : Type} [DecidableEq κ] (P : κ × γ → Prop)
    (k : κ) (v : γ) :
    ∀ m : List (κ × γ), (∀ q ∈ m, P q) → P (k, v) →
      ∀ q ∈ mapSet k v m, P q
  | [], _, hkv, q, hq => by
    rw [mapSet] at hq
    rcases List.mem_singleton.mp hq with rfl
    exact hkv
  | p :: rest, hm, hkv, q, hq => by
    obtain ⟨k1, v1⟩ := p
    rw [mapSet] at hq
    by_cases h1 : k1 = k
    · rw [if_pos h1] at hq
      rcases List.mem_cons.mp hq with rfl | hq'
      · exact hkv
      · exact hm q (List.mem_cons_of_mem _ hq')
    · rw [if_neg h1] at hq
      rcases List.mem_cons.mp hq with rfl | hq'
      · exact hm _ (List.mem_cons_self _ _)
      · exact mapSet_forall P k v rest
          (fun r hr => hm r (List.mem_cons_of_mem _ hr)) hkv q hq'

theorem sheetFileMapOf_idx_lt (names : List String) (env : OoxmlEnv) :
    ∀ q ∈ sheetFileMapOf names env, q.2 < names.length := by
  rw [sheetFileMapOf]
  cases env.workbookRels with
  | none => simp
  | some rels =>
    cases env.workbookSheets with
    | none => simp
    | some sheetEntries =>
      refine foldl_inv (fun m : List (String × Nat) => ∀ q ∈ m, q.2 < names.length) _ ?_
        sheetEntries [] (by simp)
      intro m p hm
      dsimp only
      cases rels.find? (fun r => r.1 = p.2) with
      | none => exact hm
      | some rel =>
        dsimp only
        cases hidx : List.findIdx? (fun n => n = p.1) names with
        | none => exact hm
        | some sheetIdx =>
          have hlt : sheetIdx < names.length := by
            obtain ⟨h, _⟩ := List.findIdx?_eq_some_iff_getElem.mp hidx
            exact h
          exact mapSet_forall _ _ _ m hm hlt

theorem imageMappingsOf_sheet_mem (names : List String) (env : OoxmlEnv)
    (sn : Option String) :
    ∀ m ∈ imageMappingsOf names env sn, m.position.sheet ∈ names := by
  intro m hm
  rw [imageMappingsOf] at hm
  obtain ⟨p, hp, hmem⟩ := List.mem_flatMap.mp hm
  dsimp only at hmem
  by_cases h2 : truthy sn = true ∧ names.getD p.2 "" ≠ optVal sn
  · rw [if_pos h2] at hmem
    simp at hmem
  · rw [if_neg h2] at hmem
    rw [sheetMappings_sheet env _ _ m hmem]
    exact getD_mem_of_lt names p.2 "" (sheetFileMapOf_idx_lt names env p hp)

theorem emitMapped_positions_mem (media : List (String × MediaVal)) :
    ∀ (entries : List (String × List ImagePosition)) (total : Nat),
      ∀ img ∈ (emitMapped media entries total).1,
        ∃ e ∈ entries, img.positions = e.2
  | [], _, img, h => by simp [emitMapped] at h
  | e :: rest, total, img, h => by
    rw [emitMapped] at h
    cases hm : alookup e.1 media with
    | none =>
      rw [hm] at h
      obtain ⟨e', he', hp⟩ := emitMapped_positions_mem media rest total img h
      exact ⟨e', List.mem_cons_of_mem _ he', hp⟩
    | some m =>
      rw [hm] at h
      dsimp only at h
      by_cases hb : total + m.data.length > MAX_IMAGES_SIZE
      · rw [if_pos hb] at h
        simp at h
      · rw [if_neg hb] at h
        dsimp only at h
        rcases List.mem_cons.mp h with rfl | h'
        · exact ⟨e, List.mem_cons_self _ _, rfl⟩
        · obtain ⟨e', he', hp⟩ := emitMapped_positions_mem media rest _ img h'
          exact ⟨e', List.mem_cons_of_mem _ he', hp⟩

theorem mappedImages_sheet_mem (names : List String) (env : OoxmlEnv)
    (sn : Option String) (total : Nat) :
    ∀ img ∈ (emitMapped (mediaFilesOf env.zipEntries)
        (groupBy (fun m => m.imagePath) (fun m => m.position)
          (imageMappingsOf names env sn)) total).1,
      ∀ q ∈ img.positions, q.sheet ∈ names := by
  intro img himg q hq
  obtain ⟨e, he, hp⟩ := emitMapped_positions_mem _ _ _ img himg
  rw [hp] at hq
  obtain ⟨e1, e2⟩ := e
  obtain ⟨hbucket, _⟩ := (mem_groupBy_iff _ _ _ _ _).mp he
  rw [← hbucket] at hq
  obtain ⟨m, hmfil, hmv⟩ := List.mem_map.mp hq
  rw [← hmv]
  exact imageMappingsOf_sheet_mem names env sn m (List.mem_of_mem_filter hmfil)

theorem extractOoxmlCore_sheet_mem (names : List String) (env : OoxmlEnv)
    (sn : Option String) :
    ∀ img ∈ (extractOoxmlCore names env sn).1, ∀ q ∈ img.positions,
      q.sheet ∈ names := by
  intro img himg q hq
  rw [extractOoxmlCore] at himg
  by_cases hmed : mediaFilesOf env.zipEntries = []
  · rw [if_pos hmed] at himg
    simp at himg
  · rw [if_neg hmed] at himg
    dsimp only at himg
    split at himg
    · dsimp only at himg
      rcases List.mem_append.mp himg with h1 | h2
      · exact mappedImages_sheet_mem names env sn 0 img h1 q hq
      · rw [emitUnmapped_positions _ _ _ img h2] at hq
        simp at hq
    · exact mappedImages_sheet_mem names env sn 0 img himg q hq

/-! ## Error contract of the entry point (C7) -/

/-- The circumstances under which `extractImages` raises, read off the
entry checks of both source files. -/
def errCond (env : FileEnv) (sn : Option String) : Prop :=
  ¬env.fileExists = true ∨
  env.bytes.length < 4 ∨
  (¬(u8 env.bytes 0 = 0x50 ∧ u8 env.bytes 1 = 0x4b) ∧
    ¬(u8 env.bytes 0 = 0xd0 ∧ u8 env.bytes 1 = 0xcf ∧
      u8 env.bytes 2 = 0x11 ∧ u8 env.bytes 3 = 0xe0)) ∨
  ((u8 env.bytes 0 = 0xd0 ∧ u8 env.bytes 1 = 0xcf ∧
      u8 env.bytes 2 = 0x11 ∧ u8 env.bytes 3 = 0xe0) ∧
    ((truthy sn = true ∧ optVal sn ∉ env.sheetNames) ∨ env.cfbStream = none)) ∨
  (¬(u8 env.bytes 0 = 0xd0 ∧ u8 env.bytes 1 = 0xcf ∧
      u8 env.bytes 2 = 0x11 ∧ u8 env.bytes 3 = 0xe0) ∧
    truthy sn = true ∧ optVal sn ∉ env.sheetNames)

/-- Every error the entry point ever returns carries `InvalidRequest`. -/
theorem extractImages_code (env : FileEnv) (sn : Option String)
    (e : ExtractError) (h : extractImages env sn = .error e) :
    e.code = ErrCode.InvalidRequest := by
  rw [extractImages, extractXlsImages] at h
  dsimp only at h
  split_ifs at h
  all_goals try (injection h with h2; rw [← h2])
  all_goals
    cases hc : env.cfbStream with
    | none =>
      rw [hc] at h
      dsimp only at h
      injection h with h2
      rw [← h2]
    | some wb =>
      rw [hc] at h
      dsimp only at h
      exact Except.noConfusion h

/-- `extractImages` errors exactly under `errCond`. -/
theorem extractImages_error_iff (env : FileEnv) (sn : Option String) :
    (∃ e, extractImages env sn = .error e) ↔ errCond env sn := by
  rw [extractImages, extractXlsImages, errCond]
  dsimp only
  by_cases h1 : ¬env.fileExists = true
  · simp only [if_pos h1]
    exact ⟨fun _ => Or.inl h1, fun _ => ⟨_, rfl⟩⟩
  · simp only [if_neg h1]
    by_cases h2 : env.bytes.length < 4
    · rw [if_pos h2]
      exact ⟨fun _ => Or.inr (Or.inl h2), fun _ => ⟨_, rfl⟩⟩
    · rw [if_neg h2]
      by_cases h3 : ¬(u8 env.bytes 0 = 0x50 ∧ u8 env.bytes 1 = 0x4b) ∧
          ¬(u8 env.bytes 0 = 0xd0 ∧ u8 env.bytes 1 = 0xcf ∧
            u8 env.bytes 2 = 0x11 ∧ u8 env.bytes 3 = 0xe0)
      · rw [if_pos h3]
        exact ⟨fun _ => Or.inr (Or.inr (Or.inl h3)), fun _ => ⟨_, rfl⟩⟩
      · rw [if_neg h3]
        by_cases h4 : u8 env.bytes 0 = 0xd0 ∧ u8 env.bytes 1 = 0xcf ∧
            u8 env.bytes 2 = 0x11 ∧ u8 env.bytes 3 = 0xe0
        · rw [if_pos h4]
          by_cases h5 : truthy sn = true ∧ optVal sn ∉ env.sheetNames
          · rw [if_pos h5]
            exact ⟨fun _ => Or.inr (Or.inr (Or.inr (Or.inl ⟨h4, Or.inl h5⟩))),
              fun _ => ⟨_, rfl⟩⟩
          · rw [if_neg h5]
            cases hc : env.cfbStream with
            | none =>
              exact ⟨fun _ => Or.inr (Or.inr (Or.inr (Or.inl ⟨h4, Or.inr rfl⟩))),
                fun _ => ⟨_, rfl⟩⟩
            | some wb =>
              constructor
              · intro hex
                obtain ⟨e, he⟩ := hex
                exact absurd he (by simp)
              · intro hcond
                rcases hcond with hd | hd | hd | hd | hd
                · exact absurd hd h1
                · exact absurd hd h2
                · exact absurd hd h3
                · rcases hd.2 with hm | hn
                  · exact absurd hm h5
                  · exact absurd hn (by simp)
                · exact absurd h4 hd.1
        · rw [if_neg h4]
          by_cases h5 : truthy sn = true ∧ optVal sn ∉ env.sheetNames
          · rw [if_pos h5]
            exact ⟨fun _ => Or.inr (Or.inr (Or.inr (Or.inr ⟨h4, h5⟩))),
              fun _ => ⟨_, rfl⟩⟩
          · rw [if_neg h5]
            constructor
            · intro hex
              obtain ⟨e, he⟩ := hex
              exact absurd he (by simp)
            · intro hcond
              rcases hcond with hd | hd | hd | hd | hd
              · exact absurd hd h1
              · exact absurd hd h2
              · exact absurd hd h3
              · exact absurd hd.1 h4
              · exact absurd ⟨hd.2.1, hd.2.2⟩ h5

/-! ## Concrete scenario data -/

def emptyOoxml : OoxmlEnv :=
  ⟨[], none, none, fun _ => none, fun _ => none, fun _ => none⟩

/-- Frame one Escher record: version/instance word, type word, 32-bit
little-endian length, payload. -/
def encE (ver ins ty : Nat) (data : List Nat) : List Nat :=
  u16bytes (ver + 16 * ins) ++ u16bytes ty ++ u32bytes data.length ++ data

def bseHeaderBytes : List Nat := [6] ++ List.replicate 35 0
def pngBlipRec : List Nat := encE 0 0 0xF01E (List.replicate 17 0 ++ [0xAA])
def bseDataRec : List Nat := encE 2 0 0xF007 (bseHeaderBytes ++ pngBlipRec)
def atomRec : List Nat := encE 0 0 0xF00E []
def bstoreTwo : List Nat := encE 0xF 0 0xF001 (atomRec ++ bseDataRec)
def dggTwo : List Nat := encE 0xF 0 0xF000 bstoreTwo
def bstoreOne : List Nat := encE 0xF 0 0xF001 bseDataRec
def dggOne : List Nat := encE 0xF 0 0xF000 bstoreOne
def revAnchorData : List Nat :=
  [0, 0, 0, 0, 0, 0, 1, 0, 0, 0, 0, 0, 0, 0, 0, 0, 0, 0]
def caRec : List Nat := encE 0 0 0xF010 revAnchorData
def optRec : List Nat := encE 3 1 0xF00B ([0x04, 0x01] ++ [1, 0, 0, 0])
def spCont : List Nat := encE 0xF 0 0xF004 (caRec ++ optRec)
def c8wbBuf : List Nat :=
  encodeBiff [⟨0x809, []⟩, ⟨0xEB, dggOne⟩, ⟨0x0A, []⟩,
    ⟨0x809, []⟩, ⟨0xEC, spCont⟩, ⟨0x0A, []⟩]
def c8fileEnv : FileEnv :=
  ⟨true, [0xd0, 0xcf, 0x11, 0xe0], ["Sheet1"], some c8wbBuf, emptyOoxml,
    inflateNone⟩
def c7fileEnv : FileEnv :=
  ⟨true, [0xd0, 0xcf, 0x11, 0xe0], ["Sheet1"], none, emptyOoxml, inflateNone⟩
def c9fileEnv : FileEnv :=
  ⟨true, [0xd0, 0xcf, 0x11, 0xe0], ["Sheet1"], some [], emptyOoxml,
    inflateNone⟩
def c5records : List BiffRecord :=
  [⟨0x809, []⟩, ⟨0x0A, []⟩, ⟨0x809, []⟩, ⟨0xEB, [1, 2]⟩]
def c3ooxEnv : OoxmlEnv :=
  ⟨[⟨"xl/media/pic.png", false, [7]⟩], none, none,
    fun _ => none, fun _ => none, fun _ => none⟩
def bigBytes : List Nat := List.replicate 7864318 0
def bigBlip : BlipInfo := ⟨1, "image/png", ".png", bigBytes⟩
def smallBlip : BlipInfo := ⟨2, "image/png", ".png", [0]⟩

/-! ## A workbook whose media outgrow the budget (C2) -/

/-- Two-sheet OOXML package: a picture of `d` bytes (base64 text) anchored
on Sheet1, then a one-byte picture anchored on Sheet2. -/
def c2envOf (d : List Nat) : OoxmlEnv :=
  ⟨[⟨"xl/media/big.png", false, d⟩, ⟨"xl/media/small.png", false, [0]⟩],
   some [("rId1", "worksheets/sheet1.xml"), ("rId2", "worksheets/sheet2.xml")],
   some [("Sheet1", "rId1"), ("Sheet2", "rId2")],
   fun p => if p = "xl/worksheets/_rels/sheet1.xml.rels" then
       some ["../drawings/drawing1.xml"]
     else if p = "xl/worksheets/_rels/sheet2.xml.rels" then
       some ["../drawings/drawing2.xml"]
     else none,
   fun p => if p = "xl/drawings/drawing1.xml" then
       some [⟨true, ["rId1"], some (0, 0), some (1, 1)⟩]
     else if p = "xl/drawings/drawing2.xml" then
       some [⟨true, ["rId1"], some (2, 2), some (3, 3)⟩]
     else none,
   fun p => if p = "xl/drawings/_rels/drawing1.xml.rels" then
       some [("rId1", "../media/big.png")]
     else if p = "xl/drawings/_rels/drawing2.xml.rels" then
       some [("rId1", "../media/small.png")]
     else none⟩

def bigMedia : List Nat := List.replicate 10485760 0

def c2ooxEnv : OoxmlEnv := c2envOf bigMedia

set_option maxRecDepth 10000 in
theorem c2_filtered (d : List Nat) :
    extractOoxmlCore ["Sheet1", "Sheet2"] (c2envOf d) (some "Sheet2") =
      ([⟨"small.png", "image/png", [0], [⟨"Sheet2", 2, 2, 3, 3⟩]⟩], false) := rfl

set_option maxRecDepth 10000 in
theorem c2_unfiltered (d : List Nat) (hd : d.length = 10485760) :
    extractOoxmlCore ["Sheet1", "Sheet2"] (c2envOf d) none =
      ([⟨"big.png", "image/png", d, [⟨"Sheet1", 0, 0, 1, 1⟩]⟩], true) := by
  have hm : mediaFilesOf (c2envOf d).zipEntries =
      [("xl/media/big.png", ⟨d, "image/png"⟩),
       ("media/big.png", ⟨d, "image/png"⟩),
       ("xl/media/small.png", ⟨[0], "image/png"⟩),
       ("media/small.png", ⟨[0], "image/png"⟩)] := rfl
  have hi : groupBy (fun m => m.imagePath) (fun m => m.position)
      (imageMappingsOf ["Sheet1", "Sheet2"] (c2envOf d) none) =
      [("xl/media/big.png", [⟨"Sheet1", 0, 0, 1, 1⟩]),
       ("xl/media/small.png", [⟨"Sheet2", 2, 2, 3, 3⟩])] := rfl
  have ha1 : alookup "xl/media/big.png" (mediaFilesOf (c2envOf d).zipEntries) =
      some ⟨d, "image/png"⟩ := rfl
  have ha2 : alookup "xl/media/small.png" (mediaFilesOf (c2envOf d).zipEntries) =
      some ⟨[0], "image/png"⟩ := rfl
  have he : emitMapped (mediaFilesOf (c2envOf d).zipEntries)
      [("xl/media/big.png", [⟨"Sheet1", 0, 0, 1, 1⟩]),
       ("xl/media/small.png", [⟨"Sheet2", 2, 2, 3, 3⟩])] 0 =
      ([⟨"big.png", "image/png", d, [⟨"Sheet1", 0, 0, 1, 1⟩]⟩], true,
        0 + d.length) := by
    rw [emitMapped, ha1]
    dsimp only
    have hb1 : ¬ (0 + d.length > MAX_IMAGES_SIZE) := by
      rw [hd]
      decide
    rw [if_neg hb1]
    rw [emitMapped, ha2]
    dsimp only
    have hb2 : 0 + d.length + [0].length > MAX_IMAGES_SIZE := by
      rw [hd]
      decide
    rw [if_pos hb2]
    rfl
  have hne : ¬ (mediaFilesOf (c2envOf d).zipEntries = []) := by
    rw [hm]
    simp
  rw [extractOoxmlCore, if_neg hne]
  dsimp only
  rw [hi, he]
  have hg : ¬ (¬ ((([⟨"big.png", "image/png", d, [⟨"Sheet1", 0, 0, 1, 1⟩]⟩],
      true, 0 + d.length) : List ExtractedImage × Bool × Nat).2.1 = true) ∧
      ¬ truthy none = true) := fun hc => hc.1 rfl
  rw [if_neg hg]

/-! ## The claims -/

/-- Claim C1: on both pipelines the cumulative charged base64 length of
the emitted images never exceeds 10*1024*1024, and a head entry whose
charge would overflow the ceiling makes the emission loop return
`truncated = true` with no further images. -/
theorem extract_budget_bound (inf : Inflate) (wb : List Nat)
    (names : List String) (sn : Option String) (env : OoxmlEnv) :
    imagesCharge (extractXlsCore inf wb names sn).1 ≤ MAX_IMAGES_SIZE ∧
    ooxmlCharge (extractOoxmlCore names env sn).1 ≤ MAX_IMAGES_SIZE ∧
    (∀ (f : Bool) (pm : List (Int × List ImagePosition)) (blip : BlipInfo)
      (rest : List BlipInfo) (total : Nat),
      total + base64Len blip.data.length > MAX_IMAGES_SIZE →
      buildImagesGo f pm (blip :: rest) total = ([], true)) ∧
    (∀ (media : List (String × MediaVal)) (e : String × List ImagePosition)
      (rest : List (String × List ImagePosition)) (total : Nat) (m : MediaVal),
      alookup e.1 media = some m → total + m.data.length > MAX_IMAGES_SIZE →
      emitMapped media (e :: rest) total = ([], true, total)) := by
  refine ⟨?_, ?_, ?_, ?_⟩
  · rw [extractXlsCore]
    dsimp only
    split
    · simp [imagesCharge]
    · split
      · simp [imagesCharge]
      · refine le_trans (Nat.le_add_left _ 0) (buildImagesGo_charge (truthy sn)
          (blipPositionsOf (gatherAnchors names sn
            (collectDrawings (readBiffRecords wb)).sheetDrawings))
          (extractBlipsFromDrawingGroup inf
            (collectDrawings (readBiffRecords wb)).drawingGroupBuffers.flatten)
          0 (Nat.zero_le _))
  · rw [extractOoxmlCore]
    by_cases hmed : mediaFilesOf env.zipEntries = []
    · rw [if_pos hmed]
      simp [ooxmlCharge]
    · rw [if_neg hmed]
      dsimp only
      obtain ⟨hch1, heq1⟩ := emitMapped_charge (mediaFilesOf env.zipEntries)
        (groupBy (fun m => m.imagePath) (fun m => m.position)
          (imageMappingsOf names env sn)) 0 (Nat.zero_le _)
      split
      · dsimp only
        have hch2 := emitUnmapped_charge
          (groupBy (fun m => m.imagePath) (fun m => m.position)
            (imageMappingsOf names env sn))
          (mediaFilesOf env.zipEntries)
          (emitMapped (mediaFilesOf env.zipEntries)
            (groupBy (fun m => m.imagePath) (fun m => m.position)
              (imageMappingsOf names env sn)) 0).2.2 (by omega)
        simp only [ooxmlCharge, List.map_append, List.sum_append] at hch2 ⊢
        simp only [ooxmlCharge] at hch1 heq1
        omega
      · simp only [ooxmlCharge] at hch1 ⊢
        omega
  · intro f pm blip rest total h
    rw [buildImagesGo]
    dsimp only
    rw [if_pos h]
  · intro media e rest total m hm hb
    rw [emitMapped, hm]
    dsimp only
    rw [if_pos hb]

theorem extract_budget_witness :
    buildImagesGo false [] [smallBlip] MAX_IMAGES_SIZE = ([], true) ∧
    emitMapped [("m", ⟨[0], "image/png"⟩)] [("m", [])] MAX_IMAGES_SIZE =
      ([], true, MAX_IMAGES_SIZE) :=
  ⟨(extract_budget_bound inflateNone [] [] none emptyOoxml).2.2.1 false []
      smallBlip [] MAX_IMAGES_SIZE (by decide),
   (extract_budget_bound inflateNone [] [] none emptyOoxml).2.2.2
      [("m", ⟨[0], "image/png"⟩)] ("m", []) [] MAX_IMAGES_SIZE
      ⟨[0], "image/png"⟩ (by decide) (by decide)⟩

/-- Claim C2 (amended): with a non-empty sheet name S, the legacy pipeline
filtered by S equals the unfiltered run followed by retain-and-restrict to
S exactly (truncation flag included); on the OOXML pipeline the same holds
as a membership equivalence provided neither run truncates (the
counterexample shows it fails under truncation). -/
theorem sheet_filter_equivalence :
    (∀ (inf : Inflate) (wb : List Nat) (names : List String) (S : String),
      S ≠ "" →
      extractXlsCore inf wb names (some S) =
        (((extractXlsCore inf wb names none).1).filterMap (retainRestrict S),
         (extractXlsCore inf wb names none).2)) ∧
    (∀ (names : List String) (env : OoxmlEnv) (S : String), S ≠ "" →
      (extractOoxmlCore names env (some S)).2 = false →
      (extractOoxmlCore names env none).2 = false →
      ∀ img : ExtractedImage,
        img ∈ (extractOoxmlCore names env (some S)).1 ↔
          img ∈ ((extractOoxmlCore names env none).1).filterMap
            (retainRestrict S)) :=
  ⟨fun inf wb names S hS => extractXlsCore_filter inf wb names S hS,
   fun names env S hS h1 h2 img => extractOoxmlCore_filter names env S hS h1 h2 img⟩

theorem sheet_filter_witness :
    extractXlsCore inflateNone [] [] (some "Sheet1") =
      (((extractXlsCore inflateNone [] [] none).1).filterMap
        (retainRestrict "Sheet1"),
       (extractXlsCore inflateNone [] [] none).2) ∧
    ((⟨"x", "y", [], []⟩ : ExtractedImage) ∈
        (extractOoxmlCore ["Sheet1"] emptyOoxml (some "Sheet1")).1 ↔
      (⟨"x", "y", [], []⟩ : ExtractedImage) ∈
        ((extractOoxmlCore ["Sheet1"] emptyOoxml none).1).filterMap
          (retainRestrict "Sheet1")) :=
  ⟨sheet_filter_equivalence.1 inflateNone [] [] "Sheet1" (by decide),
   sheet_filter_equivalence.2 ["Sheet1"] emptyOoxml "Sheet1" (by decide)
     (by decide) (by decide) ⟨"x", "y", [], []⟩⟩

/-- Counterexample to C2 as stated: when the unfiltered OOXML run
truncates on a big Sheet1 picture, the filtered Sheet2 run returns an
image that retain-and-restrict over the unfiltered run loses. -/
theorem sheet_filter_truncation_cex :
    (extractOoxmlCore ["Sheet1", "Sheet2"] (c2envOf bigMedia) (some "Sheet2")).1 ≠
      ((extractOoxmlCore ["Sheet1", "Sheet2"] (c2envOf bigMedia) none).1).filterMap
        (retainRestrict "Sheet2") := by
  have h1 := c2_filtered bigMedia
  have h2 := c2_unfiltered bigMedia (by
    show (List.replicate 10485760 0).length = 10485760
    rw [List.length_replicate])
  rw [h1, h2]
  have hr : retainRestrict "Sheet2"
      (⟨"big.png", "image/png", bigMedia, [⟨"Sheet1", 0, 0, 1, 1⟩]⟩ :
        ExtractedImage) = none := rfl
  dsimp only
  simp only [List.filterMap_cons, hr, List.filterMap_nil]
  exact List.cons_ne_nil _ _

/-- Claim C3: with an active sheet filter the legacy path emits only
images with at least one anchor on the filtered sheet — so a blip whose
anchors all lie elsewhere, or a blip with no anchors at all, is dropped —
while the unfiltered OOXML path emits an unanchored media entry with an
empty positions list. -/
theorem legacy_filter_drops :
    (∀ (inf : Inflate) (wb : List Nat) (names : List String) (S : String),
      S ≠ "" → ∀ img ∈ (extractXlsCore inf wb names (some S)).1,
        img.positions ≠ [] ∧ ∀ q ∈ img.positions, q.sheet = S) ∧
    extractOoxmlCore ["Sheet1"] c3ooxEnv none =
      ([⟨"pic.png", "image/png", [7], []⟩], false) := by
  constructor
  · intro inf wb names S hS img himg
    rw [extractXlsCore_filter inf wb names S hS] at himg
    dsimp only at himg
    obtain ⟨a, _, hsome⟩ := List.mem_filterMap.mp himg
    rw [retainRestrict] at hsome
    by_cases hflt : a.positions.filter (fun p => p.sheet = S) = []
    · rw [if_pos hflt] at hsome
      simp at hsome
    · rw [if_neg hflt, Option.some_inj] at hsome
      rw [← hsome]
      refine ⟨hflt, ?_⟩
      intro q hq
      exact of_decide_eq_true (List.mem_filter.mp hq).2
  · rfl

set_option maxRecDepth 10000 in
theorem legacy_filter_witness :
    (⟨"image1.png", "image/png", [0xAA], [⟨"Sheet1", 1, 0, 0, 0⟩]⟩ :
        ExtractedImage).positions ≠ [] ∧
    ∀ q ∈ (⟨"image1.png", "image/png", [0xAA], [⟨"Sheet1", 1, 0, 0, 0⟩]⟩ :
        ExtractedImage).positions, q.sheet = "Sheet1" :=
  legacy_filter_drops.1 inflateNone c8wbBuf ["Sheet1"] "Sheet1" (by decide)
    ⟨"image1.png", "image/png", [0xAA], [⟨"Sheet1", 1, 0, 0, 0⟩]⟩ (by decide)

/-- Claim C4 (amended): the BIFF reader equals raw record framing followed
by splicing each CONTINUE payload into the preceding record; after the
head no CONTINUE record remains (but a leading CONTINUE run is kept, not
ignored — see the counterexample); and a trailing record whose declared
length overruns the buffer ends parsing with the records parsed so far. -/
theorem biff_continue_splicing :
    (∀ buf : List Nat, readBiffRecords buf = mergeContinues (rawBiffRecords buf)) ∧
    (∀ buf : List Nat, ∀ r ∈ (readBiffRecords buf).drop 1,
      r.type ≠ BIFF_CONTINUE) ∧
    (∀ (recs : List BiffRecord) (junk : List Nat),
      (∀ r ∈ recs, ValidBiffRecord r) → BadBiffTail junk →
      readBiffRecords (encodeBiff recs ++ junk) = mergeContinues recs) := by
  refine ⟨readBiffRecords_eq_merge_raw, ?_, readBiffRecords_append_bad⟩
  intro buf r hr
  rw [readBiffRecords_eq_merge_raw] at hr
  exact mergeContinues_tail_no_continue (rawBiffRecords buf).length _ le_rfl r hr

theorem biff_continue_witness :
    readBiffRecords (encodeBiff [⟨0x809, []⟩] ++ [1, 0, 9, 0]) =
      mergeContinues [⟨0x809, []⟩] :=
  biff_continue_splicing.2.2 [⟨0x809, []⟩] [1, 0, 9, 0]
    (by
      intro r hr
      rcases List.mem_singleton.mp hr with rfl
      exact ⟨by decide, by decide⟩)
    ⟨by decide, by decide⟩

set_option maxRecDepth 10000 in
/-- Counterexample to C4 as stated: a CONTINUE with no predecessor is not
ignored — it survives, so a record of type 0x003C appears in the output. -/
theorem biff_leading_continue_cex :
    readBiffRecords [0x3C, 0, 2, 0, 0xAA, 0xBB] = [⟨0x3C, [0xAA, 0xBB]⟩] ∧
    ∃ r ∈ readBiffRecords [0x3C, 0, 2, 0, 0xAA, 0xBB],
      r.type = BIFF_CONTINUE := by
  decide

/-- Claim C5 (amended): the workbook scan collects every MsoDrawingGroup
(0x00EB) record regardless of which sub-stream it sits in, and attributes
MsoDrawing (0x00EC) records seen inside sub-stream i ≥ 1 to worksheet
i - 1 in sheet order. -/
theorem drawing_collection_scan (records : List BiffRecord) :
    (collectDrawings records).drawingGroupBuffers = specDggBuffers records ∧
    (collectDrawings records).sheetDrawings = specSheetDrawings records :=
  collectDrawings_spec records

set_option maxRecDepth 10000 in
/-- Counterexample to C5 as stated: an MsoDrawingGroup record inside a
sheet sub-stream (index 1) is still collected, though the globals-only
reading predicts nothing. -/
theorem dgg_substream_cex :
    (collectDrawings c5records).drawingGroupBuffers = [[1, 2]] ∧
    specDggGlobalsOnly c5records = [] := by
  decide

/-- Claim C6 (amended): within one BStoreContainer a blip's index is its
1-based position among all container children (so a BSE preceded by a
non-BSE child does not get index 1 — see the counterexample), the indices
are strictly increasing, and the legacy result loop emits images as an
order-preserving sub-selection of the blips. -/
theorem bse_index_ordering :
    (∀ (inf : Inflate) (storeData : List Nat),
      ((bseLoop inf storeData).map (fun b => b.index)).Pairwise (· < ·)) ∧
    (∀ (inf : Inflate) (storeData : List Nat) (b : BlipInfo),
      b ∈ bseLoop inf storeData →
      1 ≤ b.index ∧
      ∃ rec, (iterEscherRecords storeData)[b.index - 1]? = some rec ∧
        rec.type = ESCHER_BSE) ∧
    (∀ (f : Bool) (pm : List (Int × List ImagePosition))
      (blips : List BlipInfo) (total : Nat),
      ∃ bs : List BlipInfo, bs.Sublist blips ∧
        (buildImagesGo f pm blips total).1 =
          bs.map (fun b => mkXlsImage b ((alookup (b.index : Int) pm).getD []))) :=
  ⟨bseLoop_indices_strict_mono,
   fun inf sd b hb => bseLoop_index_position inf sd b hb,
   fun f pm blips total => buildImagesGo_sublist f pm blips total⟩

set_option maxRecDepth 10000 in
theorem bse_index_witness :
    1 ≤ (⟨2, "image/png", ".png", [0xAA]⟩ : BlipInfo).index ∧
    ∃ rec, (iterEscherRecords (atomRec ++ bseDataRec))[
        (⟨2, "image/png", ".png", [0xAA]⟩ : BlipInfo).index - 1]? = some rec ∧
      rec.type = ESCHER_BSE :=
  bse_index_ordering.2.1 inflateNone (atomRec ++ bseDataRec)
    ⟨2, "image/png", ".png", [0xAA]⟩ (by decide)

set_option maxRecDepth 10000 in
/-- Counterexample to C6 as stated: the first (and only) BSE of a
BStoreContainer whose first child is a non-BSE atom gets index 2, not 1. -/
theorem bse_first_index_cex :
    extractBlipsFromDrawingGroup inflateNone dggTwo =
      [⟨2, "image/png", ".png", [0xAA]⟩] ∧
    ∀ b ∈ extractBlipsFromDrawingGroup inflateNone dggTwo, b.index ≠ 1 := by
  decide

/-- Claim C7 (amended): `extractImages` errors exactly when the file is
missing, shorter than four bytes, carries neither the ZIP nor the OLE2
signature, names an absent sheet, or — on the OLE2 path — lacks a
Workbook/Book stream; and every error, the missing-stream one included,
carries `InvalidRequest` (not `InvalidFormat`; see the counterexample). -/
theorem extract_error_contract (env : FileEnv) (sn : Option String) :
    ((∃ e, extractImages env sn = .error e) ↔ errCond env sn) ∧
    (∀ e, extractImages env sn = .error e → e.code = ErrCode.InvalidRequest) :=
  ⟨extractImages_error_iff env sn, fun e he => extractImages_code env sn e he⟩

theorem extract_error_witness :
    errCond c7fileEnv none ∧
    (⟨ErrCode.InvalidRequest, "Cannot find Workbook stream in .xls file"⟩ :
      ExtractError).code = ErrCode.InvalidRequest :=
  ⟨(extract_error_contract c7fileEnv none).1.mp ⟨_, rfl⟩,
   (extract_error_contract c7fileEnv none).2
     ⟨ErrCode.InvalidRequest, "Cannot find Workbook stream in .xls file"⟩ rfl⟩

/-- Counterexample to C7 as stated: a CFB file without a Workbook stream
raises `InvalidRequest`, not the claimed `InvalidFormat`. -/
theorem workbook_stream_code_cex :
    extractImages c7fileEnv none =
      .error ⟨ErrCode.InvalidRequest,
        "Cannot find Workbook stream in .xls file"⟩ ∧
    ErrCode.InvalidRequest ≠ ErrCode.InvalidFormat :=
  ⟨rfl, by decide⟩

/-- Claim C8 (amended): every position of every image an `ok` extraction
returns names a worksheet that exists in the workbook (row/column indices
are naturals by construction); the claimed fromRow ≤ toRow ordering is
false — the legacy reader copies anchor coordinates unvalidated (see the
counterexample). -/
theorem positions_sheet_real (env : FileEnv) (sn : Option String)
    (res : List ExtractedImage × Bool)
    (h : extractImages env sn = .ok res) :
    ∀ img ∈ res.1, ∀ q ∈ img.positions, q.sheet ∈ env.sheetNames := by
  rw [extractImages, extractXlsImages] at h
  dsimp only at h
  split_ifs at h
  · cases hc : env.cfbStream with
    | none =>
      rw [hc] at h
      dsimp only at h
      exact Except.noConfusion h
    | some wb =>
      rw [hc] at h
      dsimp only at h
      injection h with h2
      rw [← h2]
      exact extractXlsCore_sheet_mem env.inflate wb env.sheetNames sn
  · injection h with h2
    rw [← h2]
    exact extractOoxmlCore_sheet_mem env.sheetNames env.ooxml sn

set_option maxRecDepth 10000 in
theorem positions_sheet_witness :
    (⟨"Sheet1", 1, 0, 0, 0⟩ : ImagePosition).sheet ∈ c8fileEnv.sheetNames :=
  positions_sheet_real c8fileEnv none
    ([⟨"image1.png", "image/png", [0xAA], [⟨"Sheet1", 1, 0, 0, 0⟩]⟩], false) rfl
    ⟨"image1.png", "image/png", [0xAA], [⟨"Sheet1", 1, 0, 0, 0⟩]⟩ (by decide)
    ⟨"Sheet1", 1, 0, 0, 0⟩ (by decide)

set_option maxRecDepth 10000 in
/-- Counterexample to C8 as stated: a legacy anchor with row1 = 1 and
row2 = 0 is emitted as a position with fromRow = 1 > toRow = 0. -/
theorem reversed_anchor_cex :
    ∃ imgs : List ExtractedImage,
      extractImages c8fileEnv none = .ok (imgs, false) ∧
      ∃ img ∈ imgs, ∃ q ∈ img.positions, q.toRow < q.fromRow :=
  ⟨[⟨"image1.png", "image/png", [0xAA], [⟨"Sheet1", 1, 0, 0, 0⟩]⟩], rfl,
    by decide⟩

/-- Claim C9: a readable workbook with no embedded pictures yields
`([], false)` without error — legacy when the stream holds no
MsoDrawingGroup record, OOXML when the package holds no media files — and
a malformed Escher record header ends that container level's traversal,
keeping the records already parsed, instead of failing. -/
theorem empty_workbook_clean :
    (∀ (env : FileEnv) (sn : Option String) (wb : List Nat),
      env.fileExists = true →
      (truthy sn = true → optVal sn ∈ env.sheetNames) →
      env.cfbStream = some wb →
      (∀ r ∈ readBiffRecords wb, r.type ≠ BIFF_MSODRAWINGGROUP) →
      extractXlsImages env sn = .ok ([], false)) ∧
    (∀ (names : List String) (env : OoxmlEnv) (sn : Option String),
      mediaFilesOf env.zipEntries = [] →
      extractOoxmlCore names env sn = ([], false)) ∧
    (∀ (chunks : List EscherChunk) (junk : List Nat),
      (∀ c ∈ chunks, ValidEscherChunk c) → readEscherRecord junk 0 = none →
      iterEscherRecords (encodeEscherList chunks ++ junk) =
        iterEscherRecords (encodeEscherList chunks)) := by
  refine ⟨?_, ?_, iterEscherRecords_append_bad⟩
  · intro env sn wb hex hsheet hcfb hno
    rw [extractXlsImages]
    have h1 : ¬ (¬ env.fileExists = true) := fun hc => hc hex
    rw [if_neg h1]
    have h2 : ¬ (truthy sn = true ∧ optVal sn ∉ env.sheetNames) :=
      fun hc => hc.2 (hsheet hc.1)
    rw [if_neg h2, hcfb]
    dsimp only
    have hfil : (readBiffRecords wb).filter
        (fun r => r.type = BIFF_MSODRAWINGGROUP) = [] := by
      rw [List.filter_eq_nil_iff]
      intro r hr
      simpa using hno r hr
    have hbuf : (collectDrawings (readBiffRecords wb)).drawingGroupBuffers = [] := by
      rw [(collectDrawings_spec (readBiffRecords wb)).1, specDggBuffers, hfil]
      rfl
    rw [extractXlsCore]
    dsimp only
    have hcond : (collectDrawings (readBiffRecords wb)).drawingGroupBuffers = [] ∨
        (collectDrawings (readBiffRecords wb)).drawingGroupBuffers.flatten = [] :=
      Or.inl hbuf
    rw [if_pos hcond]
  · intro names env sn hmed
    rw [extractOoxmlCore, if_pos hmed]

theorem empty_workbook_witness :
    extractXlsImages c9fileEnv none = .ok ([], false) ∧
    extractOoxmlCore ["Sheet1"] emptyOoxml none = ([], false) ∧
    iterEscherRecords (encodeEscherList [] ++ [0]) =
      iterEscherRecords (encodeEscherList []) :=
  ⟨empty_workbook_clean.1 c9fileEnv none [] rfl (by decide) rfl (by decide),
   empty_workbook_clean.2.1 ["Sheet1"] emptyOoxml none rfl,
   empty_workbook_clean.2.2 [] [0] (fun c hc => absurd hc (List.not_mem_nil c))
     (by decide)⟩

/-- Claim C10: with the sheet filter active, a blip with no positions on
the filtered sheet is skipped only after its base64 length is charged
against the budget, so filtered-out blips still consume the 10 MiB
ceiling; concretely, a filtered-out blip whose base64 length is exactly
the ceiling truncates the run before a later one-byte blip, which is
never emitted. -/
theorem filter_budget_charge :
    (∀ (pm : List (Int × List ImagePosition)) (blip : BlipInfo)
      (rest : List BlipInfo) (total : Nat),
      ¬ total + base64Len blip.data.length > MAX_IMAGES_SIZE →
      (alookup (blip.index : Int) pm).getD [] = [] →
      buildImagesGo true pm (blip :: rest) total =
        buildImagesGo true pm rest (total + base64Len blip.data.length)) ∧
    buildImagesGo true [] [bigBlip, smallBlip] 0 = ([], true) := by
  constructor
  · intro pm blip rest total hb hempty
    rw [buildImagesGo]
    dsimp only
    rw [if_neg hb, if_pos ⟨rfl, hempty⟩]
  · have hlen : base64Len bigBlip.data.length = 10485760 := by
      show base64Len (List.replicate 7864318 0).length = 10485760
      simp only [List.length_replicate]
      decide
    rw [buildImagesGo]
    dsimp only
    have hc1 : ¬ (0 + base64Len bigBlip.data.length > MAX_IMAGES_SIZE) := by
      rw [hlen]
      decide
    rw [if_neg hc1]
    have hc2 : (true : Bool) = true ∧
        ((alookup ((bigBlip.index : Nat) : Int)
          ([] : List (Int × List ImagePosition))).getD [] :
            List ImagePosition) = [] := ⟨rfl, rfl⟩
    rw [if_pos hc2]
    rw [show 0 + base64Len bigBlip.data.length = 10485760 from by rw [hlen]]
    decide

theorem filter_budget_witness :
    buildImagesGo true [] [smallBlip] 0 =
      buildImagesGo true [] [] (0 + base64Len smallBlip.data.length) :=
  filter_budget_charge.1 [] smallBlip [] 0 (by decide) rfl

end ExcelReader
